import Mathlib

/-!
# CP-SAT knapsack with conflicts: a shallow embedding of `CP-SAT.cpp`

The development follows the source file function by function.

* Text is a list of characters (one per byte of the C++ `std::string`).
* `int` values are integers in `[INT_MIN, INT_MAX]`; `long long` accumulators
  are reduced with `wrap64` after every addition.
* Vectors are lists. `static_cast<int>(v.size())` is taken to be the length
  itself in the solver, which is exact for vectors of fewer than `2^31`
  elements; the theorems that depend on it carry that bound as a hypothesis.
* The CP-SAT engine is external: `SolveCpModel` is a parameter of
  `SolveKnapsackWithConflicts`, and the model handed to it is the data
  structure `CpModelBuilder` with the usual integer semantics of linear
  constraints.
-/

namespace KPCG

/-! ## Machine integers -/

/-- Smallest value of a C++ `int`. -/
def INT_MIN : Int := -2147483648

/-- Largest value of a C++ `int`. -/
def INT_MAX : Int := 2147483647

/-- Membership in the range of a C++ `int`. -/
def InIntRange (z : Int) : Prop := INT_MIN ≤ z ∧ z ≤ INT_MAX

instance (z : Int) : Decidable (InIntRange z) := by
  unfold InIntRange; exact inferInstance

/-- Two's complement reduction of an integer to a 64-bit `long long`. -/
def wrap64 (z : Int) : Int := (z + 2 ^ 63) % 2 ^ 64 - 2 ^ 63

/-- Two's complement reduction of an integer to a 32-bit `int`
(`static_cast<int>` of a `size_t`). -/
def wrap32 (z : Int) : Int := (z + 2 ^ 31) % 2 ^ 32 - 2 ^ 31

/-! ## The result record (source lines 18-23) -/

/-- The `Result` struct; `time_taken` is a `double` filled in by `main` and is
not part of what `SolveKnapsackWithConflicts` computes. -/
structure Result where
  picked : List Nat
  total_weight : Int
  total_value : Int
  deriving DecidableEq, Repr

/-! ## The CP-SAT model (interface of `ortools/sat/cp_model.h`) -/

/-- Status of a solver response. -/
inductive CpSolverStatus
  | UNKNOWN
  | MODEL_INVALID
  | FEASIBLE
  | INFEASIBLE
  | OPTIMAL
  deriving DecidableEq, Repr

/-- A linear expression: a list of terms `coefficient * x[var]`. -/
abbrev LinearExpr := List (Int × Nat)

/-- Value of a linear expression under an assignment of the variables. -/
def LinearExpr.eval (e : LinearExpr) (a : Nat → Int) : Int :=
  (e.map (fun t => t.1 * a t.2)).sum

/-- The two kinds of constraint the program adds. -/
inductive Constraint
  | lessOrEqual (e : LinearExpr) (bound : Int)
  | equality (e : LinearExpr) (value : Int)
  deriving DecidableEq, Repr

/-- Truth of a constraint under an assignment. -/
def Constraint.holds (a : Nat → Int) : Constraint → Prop
  | .lessOrEqual e bound => e.eval a ≤ bound
  | .equality e value => e.eval a = value

instance (a : Nat → Int) (c : Constraint) : Decidable (c.holds a) := by
  cases c <;> (unfold Constraint.holds; exact inferInstance)

/-- What `CpModelBuilder` holds after the calls of the program: the Boolean
variables `x[0..numVars)`, the constraints in the order added, and the
objective passed to `Maximize`. -/
structure CpModelBuilder where
  numVars : Nat
  constraints : List Constraint
  objective : LinearExpr
  deriving DecidableEq, Repr

/-- An assignment is feasible for a model when every Boolean variable takes
the value 0 or 1 and every constraint holds. -/
def Feasible (m : CpModelBuilder) (a : Nat → Int) : Prop :=
  (∀ i, i < m.numVars → (a i = 0 ∨ a i = 1)) ∧ ∀ c ∈ m.constraints, c.holds a

instance (m : CpModelBuilder) (a : Nat → Int) : Decidable (Feasible m a) := by
  unfold Feasible; exact inferInstance

/-- An assignment is optimal when it is feasible and no feasible assignment
has a larger objective value. -/
def Optimal (m : CpModelBuilder) (a : Nat → Int) : Prop :=
  Feasible m a ∧ ∀ b, Feasible m b → m.objective.eval b ≤ m.objective.eval a

/-- The part of `CpSolverResponse` the program reads: the status and
`SolutionIntegerValue(response, x[i])` for each variable index. -/
structure CpSolverResponse where
  status : CpSolverStatus
  solution : Nat → Int

/-! ## `SolveKnapsackWithConflicts` (source lines 149-222) -/

/-- Loop body of lines 178-180 and 197-199: `expr += coeffs[i] * x[i]`. -/
def addTerm (coeffs : List Int) (expr : LinearExpr) (i : Nat) : LinearExpr :=
  expr ++ [(coeffs.getD i 0, i)]

/-- Loop body of lines 183-194 for one conflict pair. -/
def addConflict (n : Nat) (cs : List Constraint) (conflict : Int × Int) :
    List Constraint :=
  let i := conflict.1
  let j := conflict.2
  if i < 0 ∨ j < 0 ∨ i ≥ (n : Int) ∨ j ≥ (n : Int) then
    cs
  else if i = j then
    cs ++ [Constraint.equality [(1, i.toNat)] 0]
  else
    cs ++ [Constraint.lessOrEqual [(1, i.toNat), (1, j.toNat)] 1]

/-- The model built by lines 170-200. -/
def buildModel (weights values : List Int) (capacity : Int)
    (conflicts : List (Int × Int)) : CpModelBuilder :=
  let n := weights.length
  let weight_expr : LinearExpr := (List.range n).foldl (addTerm weights) []
  let cs := conflicts.foldl (addConflict n) [Constraint.lessOrEqual weight_expr capacity]
  let objective : LinearExpr := (List.range n).foldl (addTerm values) []
  { numVars := n, constraints := cs, objective := objective }

/-- Loop body of lines 214-220. -/
def extractStep (weights values : List Int) (response : CpSolverResponse)
    (result : Result) (i : Nat) : Result :=
  if response.solution i = 1 then
    { picked := result.picked ++ [i]
      total_weight := wrap64 (result.total_weight + weights.getD i 0)
      total_value := wrap64 (result.total_value + values.getD i 0) }
  else
    result

/-- The function `SolveKnapsackWithConflicts`, with the external engine
`SolveCpModel` as a parameter. `none` is `std::nullopt`. -/
def SolveKnapsackWithConflicts (SolveCpModel : CpModelBuilder → CpSolverResponse)
    (weights values : List Int) (capacity : Int)
    (conflicts : List (Int × Int)) : Option Result :=
  let n := weights.length
  if values.length ≠ weights.length then
    none
  else
    let response := SolveCpModel (buildModel weights values capacity conflicts)
    if response.status ≠ CpSolverStatus.OPTIMAL ∧
        response.status ≠ CpSolverStatus.FEASIBLE then
      none
    else
      some ((List.range n).foldl (extractStep weights values response)
        { picked := [], total_weight := 0, total_value := 0 })

/-- The picked indices as the specification describes them: the indices below
`n` whose assigned value is 1, in increasing order. -/
def selectedIndices (n : Nat) (a : Nat → Int) : List Nat :=
  (List.range n).filter (fun i => a i = 1)

/-- Exact integer sum of `xs[i]` over a list of indices. -/
def sumAt (xs : List Int) (idx : List Nat) : Int :=
  (idx.map (fun i => xs.getD i 0)).sum

/-- The constraint one conflict pair contributes to the model, if any
(the three branches of lines 186-193). -/
def conflictConstraint (n : Nat) (conflict : Int × Int) : Option Constraint :=
  if conflict.1 < 0 ∨ conflict.2 < 0 ∨ conflict.1 ≥ (n : Int) ∨ conflict.2 ≥ (n : Int) then
    none
  else if conflict.1 = conflict.2 then
    some (Constraint.equality [(1, conflict.1.toNat)] 0)
  else
    some (Constraint.lessOrEqual [(1, conflict.1.toNat), (1, conflict.2.toNat)] 1)

/-- A conflict pair is in range when both indices lie in `[0, n)`. -/
def pairInRange (n : Nat) (conflict : Int × Int) : Bool :=
  decide (¬ (conflict.1 < 0 ∨ conflict.2 < 0 ∨ conflict.1 ≥ (n : Int) ∨ conflict.2 ≥ (n : Int)))

/-- A solver stub that answers every model with the given status and
assignment; used to run the function on concrete inputs. -/
def constSolver (status : CpSolverStatus) (a : Nat → Int) :
    CpModelBuilder → CpSolverResponse :=
  fun _ => { status := status, solution := a }

/-- The three items of the specification scenarios: weights. -/
def scenarioWeights : List Int := [2, 3, 4]

/-- The three items of the specification scenarios: values. -/
def scenarioValues : List Int := [3, 4, 5]

/-! ## String helpers (source lines 25-37 and the library calls they use) -/

/-- The set `" \t\r\n"` that `Trim` strips. -/
def whitespace : List Char := [' ', '\t', '\r', '\n']

/-- Result of `s.find_first_not_of(set)`; `none` is `npos`. -/
def find_first_not_of (s set : List Char) : Option Nat :=
  s.findIdx? (fun c => !(set.contains c))

/-- Result of `s.find_last_not_of(set)`; `none` is `npos`. -/
def find_last_not_of (s set : List Char) : Option Nat :=
  match s.reverse.findIdx? (fun c => !(set.contains c)) with
  | none => none
  | some k => some (s.length - 1 - k)

/-- The call `s.substr(pos, len)` for `pos` within the string. -/
def substr (s : List Char) (pos len : Nat) : List Char :=
  (s.drop pos).take len

/-- The function `Trim`. When a first non-blank character exists a last one
exists too, so the inner `none` branch is never taken; it computes what
`substr(start, npos - start + 1)` would. -/
def Trim (s : List Char) : List Char :=
  match find_first_not_of s whitespace with
  | none => []
  | some start =>
    match find_last_not_of s whitespace with
    | none => s.drop start
    | some last => substr s start (last - start + 1)

/-- The function `StartsWith`: `s.rfind(pre, 0) == 0`. -/
def StartsWith (s pre : List Char) : Bool :=
  pre.isPrefixOf s

/-- Result of `s.find(pat)`: index of the first occurrence; `none` is `npos`. -/
def find : List Char → List Char → Option Nat
  | [], pat => if pat.isEmpty then some 0 else none
  | c :: s, pat =>
    if pat.isPrefixOf (c :: s) then some 0
    else (find s pat).map (· + 1)

/-- The C `isspace` test in the default locale. -/
def isSpace (c : Char) : Bool :=
  c = ' ' || c = '\t' || c = '\n' || c = '\x0b' || c = '\x0c' || c = '\r'

/-- Value of a run of decimal digits. -/
def digitsValue (ds : List Char) : Nat :=
  ds.foldl (fun acc c => 10 * acc + (c.toNat - 48)) 0

/-- The two exceptions `std::stoi` throws. -/
inductive StoiError
  | invalid_argument
  | out_of_range
  deriving DecidableEq, Repr

/-- Split a numeric prefix: skip leading `isspace` characters, read an optional
sign, then the longest run of decimal digits. Returns whether the sign is
`-`, the digits and the unread rest. -/
def scanNumber (s : List Char) : Bool × List Char × List Char :=
  let s1 := s.dropWhile isSpace
  let neg := s1.head? = some '-'
  let s2 := if s1.head? = some '-' ∨ s1.head? = some '+' then s1.tail else s1
  (neg, s2.takeWhile Char.isDigit, s2.dropWhile Char.isDigit)

/-- The signed value of a scanned number. -/
def signedValue (neg : Bool) (digits : List Char) : Int :=
  if neg then -(digitsValue digits : Int) else (digitsValue digits : Int)

/-- The call `std::stoi(s)`: base 10, trailing characters ignored; throws
`invalid_argument` when no digit is read and `out_of_range` when the value
does not fit an `int`. -/
def stoi (s : List Char) : Except StoiError Int :=
  let (neg, digits, _) := scanNumber s
  if digits.isEmpty then
    .error StoiError.invalid_argument
  else if INT_MIN ≤ signedValue neg digits ∧ signedValue neg digits ≤ INT_MAX then
    .ok (signedValue neg digits)
  else
    .error StoiError.out_of_range

/-- One formatted extraction `iss >> x` for an `int`: the value and the unread
rest of the stream, or `none` when the stream enters the fail state (nothing
left, no digit, or a value outside the range of `int`). -/
def extractInt (s : List Char) : Option (Int × List Char) :=
  let (neg, digits, rest) := scanNumber s
  if digits.isEmpty then
    none
  else if INT_MIN ≤ signedValue neg digits ∧ signedValue neg digits ≤ INT_MAX then
    some (signedValue neg digits, rest)
  else
    none

/-- The chained extraction `iss >> idx >> value >> weight` (line 128). -/
def extractThree (line : List Char) : Option (Int × Int × Int) :=
  match extractInt line with
  | none => none
  | some (idx, r1) =>
    match extractInt r1 with
    | none => none
    | some (value, r2) =>
      match extractInt r2 with
      | none => none
      | some (weight, _) => some (idx, value, weight)

/-- The chained extraction `iss >> i >> j` (line 136). -/
def extractTwo (line : List Char) : Option (Int × Int) :=
  match extractInt line with
  | none => none
  | some (i, r1) =>
    match extractInt r1 with
    | none => none
    | some (j, _) => some (i, j)

/-- The lines `std::getline` yields for a file text: pieces between newline
characters, the last piece only when it is not empty. The second argument
holds the current line in reverse. -/
def getlinesAux : List Char → List Char → List (List Char)
  | [], cur => if cur.isEmpty then [] else [cur.reverse]
  | c :: cs, cur =>
    if c = '\n' then cur.reverse :: getlinesAux cs []
    else getlinesAux cs (c :: cur)

/-- All lines read by the loop `while (std::getline(infile, line))`. -/
def getlines (text : List Char) : List (List Char) :=
  getlinesAux text []

/-! ## `ParseKnapsackFile` (source lines 82-147) -/

/-- The values the local `state` string takes: `""`, `"items"`, `"conflicts"`. -/
inductive Section
  | none
  | items
  | conflicts
  deriving DecidableEq, Repr

/-- The variables the scanning loop updates: the four outputs and the locals
`state` and `num_items`. -/
structure ParseVars where
  weights : List Int
  values : List Int
  capacity : Int
  conflicts : List (Int × Int)
  state : Section
  num_items : Int
  deriving DecidableEq, Repr

/-- The text after `:=` with every `;` erased and trimmed (lines 103-105 and
108-110, argument of `std::stoi`). When `:=` is absent `pos + 2` wraps to 1. -/
def paramArgument (line : List Char) : List Char :=
  let pos2 := match find line ":=".toList with
    | some pos => pos + 2
    | none => 1
  Trim ((line.drop pos2).filter (fun c => c ≠ ';'))

/-- Lines 123-139: the data part of the loop body, by section. -/
def dataLine (v : ParseVars) (line : List Char) : ParseVars :=
  match v.state with
  | Section.items =>
    match extractThree line with
    | some (_, value, weight) =>
      { v with values := v.values ++ [value], weights := v.weights ++ [weight] }
    | none => v
  | Section.conflicts =>
    match extractTwo line with
    | some (i, j) => { v with conflicts := v.conflicts ++ [(i, j)] }
    | none => v
  | Section.none => v

/-- One iteration of the loop of lines 97-140 on a line as read by `getline`.
An error is an exception leaving `std::stoi`; nothing in the program catches
it. -/
def processLine (v : ParseVars) (raw : List Char) : Except StoiError ParseVars :=
  let line := Trim raw
  if line.isEmpty || StartsWith line "#".toList then
    .ok v
  else if StartsWith line "param n :=".toList then
    match stoi (paramArgument line) with
    | .error e => .error e
    | .ok n => .ok (dataLine { v with num_items := n } line)
  else if StartsWith line "param c :=".toList then
    match stoi (paramArgument line) with
    | .error e => .error e
    | .ok c => .ok (dataLine { v with capacity := c } line)
  else if StartsWith line "param : V : p w :=".toList then
    .ok { v with state := Section.items }
  else if StartsWith line "set E :=".toList then
    .ok { v with state := Section.conflicts }
  else if line = ";".toList then
    .ok { v with state := Section.none }
  else
    .ok (dataLine v line)

/-- The whole loop: the lines in order, stopping at the first exception. -/
def scanLines (v : ParseVars) : List (List Char) → Except StoiError ParseVars
  | [] => .ok v
  | raw :: rest =>
    match processLine v raw with
    | .error e => .error e
    | .ok v' => scanLines v' rest

/-- What a call of `ParseKnapsackFile` leaves behind: the returned `bool`, the
four output variables, and whether the warning of lines 143-144 was written
to `std::cerr`. -/
structure ParseReturn where
  ok : Bool
  weights : List Int
  values : List Int
  capacity : Int
  conflicts : List (Int × Int)
  warned : Bool
  deriving DecidableEq, Repr

/-- The function `ParseKnapsackFile`. The file system is the parameter `fs`
(`none` for a path that cannot be opened); the last four arguments are the
contents of the output variables at the call. An error is an uncaught
exception. -/
def ParseKnapsackFile (fs : List Char → Option (List Char)) (filepath : List Char)
    (weights values : List Int) (capacity : Int) (conflicts : List (Int × Int)) :
    Except StoiError ParseReturn :=
  match fs filepath with
  | none =>
    .ok { ok := false, weights := weights, values := values, capacity := capacity,
          conflicts := conflicts, warned := false }
  | some text =>
    match scanLines
        { weights := weights, values := values, capacity := capacity,
          conflicts := conflicts, state := Section.none, num_items := 0 }
        (getlines text) with
    | .error e => .error e
    | .ok v =>
      .ok { ok := true, weights := v.weights, values := v.values, capacity := v.capacity,
            conflicts := v.conflicts,
            warned := decide (v.num_items ≠ 0 ∧ wrap32 (v.values.length : Int) ≠ v.num_items) }

/-- A file system holding one file, `inst.txt`, with the given text. -/
def oneFile (text : List Char) : List Char → Option (List Char) :=
  fun path => if path = "inst.txt".toList then some text else none

/-! ## The specification's reading of the input format -/

/-- Following the specification (section 4.2): the declared count is set by a
`param n := <int>;` line, the last such line winning; `none` when the file has
no such line. -/
def declaredCount : List (List Char) → Option Int
  | [] => none
  | raw :: rest =>
    match declaredCount rest with
    | some n => some n
    | none =>
      if StartsWith (Trim raw) "param n :=".toList then
        match stoi (paramArgument (Trim raw)) with
        | .ok n => some n
        | .error _ => none
      else none

/-- A file with a declared count of 0 and one item line. -/
def zeroCountText : List Char :=
  "param n := 0;\nparam : V : p w :=\n1 2 3\n;\n".toList

/-- Following the specification: the whitespace-separated tokens of a line,
the maximal runs of characters that are not blank. -/
def tokens : List Char → List (List Char)
  | [] => []
  | c :: cs =>
    if isSpace c then tokens cs
    else
      match cs with
      | [] => [[c]]
      | d :: _ =>
        if isSpace d then [c] :: tokens cs
        else
          match tokens cs with
          | t :: ts => (c :: t) :: ts
          | [] => [[c]]

/-- Following the specification: the value of an integer token, an optional
sign followed by one or more decimal digits whose value fits an `int`;
`none` for any other token. -/
def intTokenValue (t : List Char) : Option Int :=
  let neg : Bool := t.head? = some '-'
  let body := if t.head? = some '-' ∨ t.head? = some '+' then t.tail else t
  if body ≠ [] ∧ (∀ c ∈ body, c.isDigit = true) ∧ InIntRange (signedValue neg body) then
    some (signedValue neg body)
  else
    none

/-- The control lines of the format: the five tests of lines 102-121. -/
def isControlLine (line : List Char) : Bool :=
  StartsWith line "param n :=".toList || StartsWith line "param c :=".toList ||
    StartsWith line "param : V : p w :=".toList || StartsWith line "set E :=".toList ||
    decide (line = ";".toList)

/-- The loop variables inside an items section with nothing parsed yet. -/
def itemsVars : ParseVars :=
  { weights := [], values := [], capacity := 0, conflicts := [],
    state := Section.items, num_items := 0 }

/-! ## `Glob` and the collection of instance files (source lines 70-80, 279-293) -/

/-- The comparison `a < b` of two `std::string`s: lexicographic on the
characters, a proper initial segment being smaller. -/
def strLt : List Char → List Char → Bool
  | _, [] => false
  | [], _ :: _ => true
  | a :: as, b :: bs => decide (a < b) || (decide (a = b) && strLt as bs)

/-- The order `std::sort` arranges by: `a` may precede `b` when `b < a` is
false. -/
def strLe (a b : List Char) : Prop := strLt b a = false

instance : DecidableRel strLe := fun a b => by
  unfold strLe; exact inferInstance

/-- The call `std::sort(first, last)` on strings. The order is total and
antisymmetric, so every sorting algorithm returns this list (see
`stdSort_unique`). -/
def stdSort (l : List (List Char)) : List (List Char) :=
  l.insertionSort strLe

/-- The function `Glob`. The C library call `glob` is the parameter `glob`,
giving the return code and the matched paths; a non-zero code (such as
`GLOB_NOMATCH`) yields the empty vector. -/
def Glob (glob : List Char → Int × List (List Char)) (pattern : List Char) :
    List (List Char) :=
  if (glob pattern).1 = 0 then (glob pattern).2 else []

/-- Lines 288-293 on the match lists of the patterns: append every list in
turn, then sort. -/
def sortedMatches (matchLists : List (List (List Char))) : List (List Char) :=
  stdSort (matchLists.foldl (fun instance_files found => instance_files ++ found) [])

/-- The vector `instance_files` that `main` iterates over. -/
def collectInstanceFiles (glob : List Char → Int × List (List Char))
    (patterns : List (List Char)) : List (List Char) :=
  sortedMatches (patterns.map (Glob glob))

/-- A file with two item lines and a malformed line between them. -/
def twoItemsText : List Char :=
  "param : V : p w :=\n1 2 3\nabc\n4 5 6\n;\n".toList

/-- What `ParseKnapsackFile` returns for `twoItemsText`. -/
def twoItemsReturn : ParseReturn :=
  { ok := true, weights := [3, 6], values := [2, 5], capacity := 0, conflicts := [],
    warned := false }

/-- Membership in the set `Trim` strips. -/
def isTrimSpace (c : Char) : Bool :=
  whitespace.contains c

/-- Following the specification: a line is skipped when it is blank or its
first character that is not whitespace is `#`. -/
def isSkippable (raw : List Char) : Bool :=
  match raw.dropWhile isTrimSpace with
  | [] => true
  | c :: _ => c == '#'

/-- Following the specification (section 4.2): the section in force after a
line, by the control lines in their priority order; every other line leaves
the section as it is. -/
def sectionAfter (st : Section) (raw : List Char) : Section :=
  let line := Trim raw
  if line.isEmpty || StartsWith line "#".toList then st
  else if StartsWith line "param n :=".toList then st
  else if StartsWith line "param c :=".toList then st
  else if StartsWith line "param : V : p w :=".toList then Section.items
  else if StartsWith line "set E :=".toList then Section.conflicts
  else if line = ";".toList then Section.none
  else st

/-- Two lines that differ at most in their first token, which is an integer
token in both: the same leading whitespace, then the token, then the same
rest, which is empty or starts with a blank. -/
def IdxVariant (raw raw' : List Char) : Prop :=
  ∃ ws t t' r, raw = ws ++ t ++ r ∧ raw' = ws ++ t' ++ r ∧
    (∀ c ∈ ws, isTrimSpace c = true) ∧
    (intTokenValue t).isSome = true ∧ (intTokenValue t').isSome = true ∧
    (∀ c, r.head? = some c → isSpace c = true)

/-- Two files, as lists of lines read from the given section on, that differ
only in the first token of lines met inside an items section. -/
inductive IdxVariantLines : Section → List (List Char) → List (List Char) → Prop
  | nil (st : Section) : IdxVariantLines st [] []
  | same (st : Section) (raw : List Char) (ls ls' : List (List Char)) :
      IdxVariantLines (sectionAfter st raw) ls ls' →
      IdxVariantLines st (raw :: ls) (raw :: ls')
  | idx (raw raw' : List Char) (ls ls' : List (List Char)) :
      IdxVariant raw raw' →
      IdxVariantLines Section.items ls ls' →
      IdxVariantLines Section.items (raw :: ls) (raw' :: ls')

/-- Lines 128-131 once `idx` has been read: the value and the weight are
extracted from the rest of the stream and appended. -/
def itemAfterIndex (v : ParseVars) (rest : List Char) : ParseVars :=
  match extractInt rest with
  | none => v
  | some (value, r2) =>
    match extractInt r2 with
    | none => v
    | some (weight, _) =>
      { v with values := v.values ++ [value], weights := v.weights ++ [weight] }

/-- A file with two item lines; `indexVariantText` differs in the index tokens
only. -/
def indexText : List Char :=
  "param : V : p w :=\n1 2 3\n 2 5 6\n;\n".toList

/-- The text `indexText` with other index tokens. -/
def indexVariantText : List Char :=
  "param : V : p w :=\n-7 2 3\n +40 5 6\n;\n".toList

/-! ## `FilenameFromUrl` and `MakeDirectDownloadUrl` (source lines 39-60, 247-254) -/

/-- Result of `s.find_last_of(c)`: index of the last occurrence of `c`;
`none` is `npos`. -/
def find_last_of : List Char → Char → Option Nat
  | [], _ => none
  | x :: xs, c =>
    match find_last_of xs c with
    | some k => some (k + 1)
    | none => if x = c then some 0 else none

/-- Result of `s.find_first_of(c, pos)`: index of the first occurrence of `c`
at or after `pos`; `none` is `npos`. -/
def find_first_of : List Char → Char → Nat → Option Nat
  | [], _, _ => none
  | x :: xs, c, 0 => if x = c then some 0 else (find_first_of xs c 0).map (· + 1)
  | _ :: xs, c, pos + 1 => (find_first_of xs c pos).map (· + 1)

/-- The function `FilenameFromUrl`. -/
def FilenameFromUrl (url : List Char) : List Char :=
  let slash := find_last_of url '/'
  let query := find_first_of url '?' (match slash with | none => 0 | some s => s)
  match slash with
  | none => url
  | some s =>
    match query with
    | none => url.drop (s + 1)
    | some q => substr url (s + 1) (q - s - 1)

/-- The function `MakeDirectDownloadUrl`: the first `dl=0` becomes `dl=1`. -/
def MakeDirectDownloadUrl (url : List Char) : List Char :=
  match find url "dl=0".toList with
  | some pos => url.take pos ++ "dl=1".toList ++ url.drop (pos + "dl=0".toList.length)
  | none => url

/-- The constant `dropbox_urls` of `main`. -/
def dropbox_urls : List (List Char) :=
  ["https://www.dropbox.com/scl/fi/y739yds3givrzuoao1b0u/C1.zip?rlkey=z22clyzvalloof4335cdosbea&dl=0".toList,
   "https://www.dropbox.com/scl/fi/geoymn3ndrmp2rbkrrv6o/C3.zip?rlkey=bkee32fj67mlgg664vfm1jrlx&dl=0".toList,
   "https://www.dropbox.com/scl/fi/254dl7d1vqh7o3fj5zxpg/C10.zip?rlkey=2ugfkzuo7tzro0kb1whplammv&dl=0".toList,
   "https://www.dropbox.com/scl/fi/8v8d5mhf01vbvs29n9bh4/R3.zip?rlkey=9haa9ryoykfno81jy3u15q438&dl=0".toList,
   "https://www.dropbox.com/scl/fi/57790j528scwlngdfiz1q/R10.zip?rlkey=owiwvl25j6h03qoi0i54705gf&dl=0".toList,
   "https://www.dropbox.com/scl/fi/irs32pobjzxs9t6arym8o/sparse_corr.zip?rlkey=fsl6y7p2z2asg5ugc8e152xl2&dl=0".toList,
   "https://www.dropbox.com/scl/fi/f9sznsnp78g5lgcn0ws77/sparse_rand.zip?rlkey=nh7bjqwvh7etd3v4y6jtcrrf3&dl=0".toList]

/-- The archive names the download loop of `main` writes (lines 257-264). -/
def downloadNames : List (List Char) :=
  dropbox_urls.map (fun url => FilenameFromUrl (MakeDirectDownloadUrl url))

/-- The archive names the unzip loop of `main` reads (lines 268-274). -/
def unzipNames : List (List Char) :=
  dropbox_urls.map FilenameFromUrl

/-- A short URL of the shape of the Dropbox links. -/
def sampleUrl : List Char := "h/a.zip?k&dl=0".toList

/-! ## The batch loop of `main` (source lines 297-344) -/

/-- Time is read from `std::chrono::steady_clock` as a count of ticks. What
advances the clock between the readings of one iteration is external: the
duration of the call of `ParseKnapsackFile` on a path, of the construction of
the model inside `SolveKnapsackWithConflicts` (lines 165-200) and of the
solver run with the extraction (lines 202-221). -/
structure Durations where
  parse : List Char → Nat
  build : List Char → Nat
  engine : List Char → Nat

/-- Decimal text of a `size_t`, as `operator<<` writes it. -/
def showNat (n : Nat) : List Char :=
  Nat.toDigits 10 n

/-- Decimal text of a `long long`, as `operator<<` writes it. -/
def showInt (z : Int) : List Char :=
  if z < 0 then '-' :: showNat z.natAbs else showNat z.natAbs

/-- What one iteration of the loop finds for its path: a result with its
`time_taken`, no solution (the duration is printed only), or a path that
could not be read. -/
inductive Outcome
  | solved (res : Result) (time_taken : Nat)
  | noSolution (duration : Nat)
  | readError
  deriving DecidableEq, Repr

/-- The text stored in `results_summary` (lines 309, 328-333, 337). The
formatting of the `double` duration is the parameter `showDuration`. -/
def summaryText (showDuration : Nat → List Char) : Outcome → List Char
  | Outcome.solved res time_taken =>
    "Value=".toList ++ showInt res.total_value ++ ", Weight=".toList ++
      showInt res.total_weight ++ ", Picked=".toList ++ showNat res.picked.length ++
      ", Time Taken=".toList ++ showDuration time_taken ++ "s".toList
  | Outcome.noSolution _ => "No solution".toList
  | Outcome.readError => "Error: unable to read file".toList

/-- Lines 300-319 and 334-337 for one path, started when the clock reads
`now`: the clock reading at the end of the iteration and the outcome. An error
is an exception leaving `ParseKnapsackFile`. -/
def runInstance (fs : List Char → Option (List Char))
    (solve : CpModelBuilder → CpSolverResponse) (dur : Durations)
    (now : Nat) (filepath : List Char) : Except StoiError (Nat × Outcome) :=
  let start := now
  match ParseKnapsackFile fs filepath [] [] 0 [] with
  | .error e => .error e
  | .ok parsed =>
    let afterParse := now + dur.parse filepath
    if parsed.ok = false then
      .ok (afterParse, Outcome.readError)
    else
      let result := SolveKnapsackWithConflicts solve parsed.weights parsed.values
        parsed.capacity parsed.conflicts
      let stop := afterParse + dur.build filepath + dur.engine filepath
      let duration := stop - start
      match result with
      | some res => .ok (stop, Outcome.solved res duration)
      | none => .ok (stop, Outcome.noSolution duration)

/-- The state the loop carries from one path to the next: the clock and the
vector `results_summary`. -/
structure BatchState where
  now : Nat
  results_summary : List (List Char × List Char)

/-- The loop `for (const auto& filepath : instance_files)`; an error is an
uncaught exception, after which `main` prints no summary. -/
def batchLoop (fs : List Char → Option (List Char))
    (solve : CpModelBuilder → CpSolverResponse) (dur : Durations)
    (showDuration : Nat → List Char) :
    BatchState → List (List Char) → Except StoiError BatchState
  | st, [] => .ok st
  | st, filepath :: rest =>
    match runInstance fs solve dur st.now filepath with
    | .error e => .error e
    | .ok (now', outcome) =>
      batchLoop fs solve dur showDuration
        { now := now',
          results_summary := st.results_summary ++
            [(filepath, summaryText showDuration outcome)] }
        rest

/-- The scenario A instance as a file. -/
def scenarioText : List Char :=
  "param n := 3;\nparam c := 5;\nparam : V : p w :=\n0 3 2\n1 4 3\n2 5 4\n;\nset E :=\n;\n".toList

/-- A file system with a well-formed file `good.txt` and a file `bad.txt`
whose `param n :=` line holds no number. -/
def sampleFiles : List Char → Option (List Char) :=
  fun path =>
    if path = "good.txt".toList then some scenarioText
    else if path = "bad.txt".toList then some "param n := abc;\n".toList
    else none

/-- A solver stub that picks items 0 and 1 and reports OPTIMAL. -/
def sampleSolver : CpModelBuilder → CpSolverResponse :=
  constSolver CpSolverStatus.OPTIMAL (fun i => if i < 2 then 1 else 0)

/-- Sample durations: 3 ticks to parse, 1 to build the model, 4 to solve. -/
def sampleDurations : Durations :=
  { parse := fun _ => 3, build := fun _ => 1, engine := fun _ => 4 }

/-! ## Lemmas on the model -/

theorem foldl_addTerm (coeffs : List Int) (is : List Nat) (e : LinearExpr) :
    is.foldl (addTerm coeffs) e = e ++ is.map (fun i => (coeffs.getD i 0, i)) := by
  induction is generalizing e with
  | nil => simp
  | cons i is ih => simp [List.foldl, ih, addTerm]

theorem eval_append (e₁ e₂ : LinearExpr) (a : Nat → Int) :
    LinearExpr.eval (e₁ ++ e₂) a = LinearExpr.eval e₁ a + LinearExpr.eval e₂ a := by
  simp [LinearExpr.eval]

/-- Under a 0/1 assignment the weighted sum over a list of indices is the sum
of the coefficients at the indices assigned 1. -/
theorem eval_terms_eq_sumAt (coeffs : List Int) (a : Nat → Int) (is : List Nat)
    (h01 : ∀ i ∈ is, a i = 0 ∨ a i = 1) :
    LinearExpr.eval (is.map (fun i => (coeffs.getD i 0, i))) a
      = sumAt coeffs (is.filter (fun i => a i = 1)) := by
  induction is with
  | nil => simp [LinearExpr.eval, sumAt]
  | cons i is ih =>
    have hi := h01 i (List.mem_cons_self _ _)
    have ih' := ih (fun j hj => h01 j (List.mem_cons_of_mem _ hj))
    rcases hi with h0 | h1
    · simp [LinearExpr.eval, sumAt, List.filter_cons, h0] at ih' ⊢
      exact ih'
    · simp [LinearExpr.eval, sumAt, List.filter_cons, h1] at ih' ⊢
      exact ih'

/-! ## Lemmas on 64-bit accumulation -/

theorem wrap64_of_range (z : Int) (h1 : -(2 ^ 63) ≤ z) (h2 : z < 2 ^ 63) :
    wrap64 z = z := by
  unfold wrap64; omega

theorem wrap64_wrap64_add (a b : Int) : wrap64 (wrap64 a + b) = wrap64 (a + b) := by
  unfold wrap64; omega

theorem wrap64_idem (a : Int) : wrap64 (wrap64 a) = wrap64 a := by
  unfold wrap64; omega

theorem getD_inIntRange (xs : List Int) (h : ∀ x ∈ xs, InIntRange x) (i : Nat) :
    InIntRange (xs.getD i 0) := by
  by_cases hi : i < xs.length
  · rw [List.getD_eq_getElem _ _ hi]
    exact h _ (List.getElem_mem hi)
  · rw [List.getD_eq_default _ _ (by omega)]
    unfold InIntRange INT_MIN INT_MAX; omega

/-- A sum of `int` values over `k` indices lies within `k * 2^31` of zero. -/
theorem sumAt_bound (xs : List Int) (h : ∀ x ∈ xs, InIntRange x) (idx : List Nat) :
    -((idx.length : Int) * 2 ^ 31) ≤ sumAt xs idx ∧
      sumAt xs idx ≤ (idx.length : Int) * 2 ^ 31 := by
  induction idx with
  | nil => simp [sumAt]
  | cons i idx ih =>
    have hi := getD_inIntRange xs h i
    unfold InIntRange INT_MIN INT_MAX at hi
    simp only [sumAt, List.map_cons, List.sum_cons, List.length_cons] at ih ⊢
    push_cast
    omega

theorem selectedIndices_length_le (n : Nat) (a : Nat → Int) :
    (selectedIndices n a).length ≤ n := by
  unfold selectedIndices
  calc ((List.range n).filter (fun i => a i = 1)).length
      ≤ (List.range n).length := List.length_filter_le _ _
    _ = n := List.length_range n

/-- With fewer than `2^31` items of type `int`, a sum over picked indices fits
a `long long`. -/
theorem wrap64_sumAt_selected (xs : List Int) (h : ∀ x ∈ xs, InIntRange x)
    (n : Nat) (hn : n < 2 ^ 31) (a : Nat → Int) :
    wrap64 (sumAt xs (selectedIndices n a)) = sumAt xs (selectedIndices n a) := by
  have hb := sumAt_bound xs h (selectedIndices n a)
  have hl := selectedIndices_length_le n a
  have hl' : ((selectedIndices n a).length : Int) < 2 ^ 31 := by
    have : (selectedIndices n a).length < 2 ^ 31 := by omega
    exact_mod_cast this
  apply wrap64_of_range <;> omega

/-! ## Lemmas on the extraction loop -/

/-- The extraction loop over any list of indices, started from a record whose
totals are already reduced to 64 bits. -/
theorem foldl_extractStep (weights values : List Int) (response : CpSolverResponse)
    (is : List Nat) (r : Result)
    (hw : wrap64 r.total_weight = r.total_weight)
    (hv : wrap64 r.total_value = r.total_value) :
    is.foldl (extractStep weights values response) r =
      { picked := r.picked ++ is.filter (fun i => response.solution i = 1)
        total_weight := wrap64 (r.total_weight +
          sumAt weights (is.filter (fun i => response.solution i = 1)))
        total_value := wrap64 (r.total_value +
          sumAt values (is.filter (fun i => response.solution i = 1))) } := by
  induction is generalizing r with
  | nil => simp [sumAt, hw, hv]
  | cons i is ih =>
    by_cases h1 : response.solution i = 1
    · have hstep : extractStep weights values response r i =
          { picked := r.picked ++ [i]
            total_weight := wrap64 (r.total_weight + weights.getD i 0)
            total_value := wrap64 (r.total_value + values.getD i 0) } := by
        simp [extractStep, h1]
      rw [List.foldl_cons, hstep, ih _ (wrap64_idem _) (wrap64_idem _)]
      have hf : (i :: is).filter (fun i => response.solution i = 1)
          = i :: is.filter (fun i => response.solution i = 1) := by
        simp [List.filter_cons, h1]
      rw [hf]
      have e1 : sumAt weights (i :: is.filter (fun i => response.solution i = 1))
          = weights.getD i 0 + sumAt weights (is.filter (fun i => response.solution i = 1)) := by
        simp [sumAt]
      have e2 : sumAt values (i :: is.filter (fun i => response.solution i = 1))
          = values.getD i 0 + sumAt values (is.filter (fun i => response.solution i = 1)) := by
        simp [sumAt]
      simp only [wrap64_wrap64_add, e1, e2, List.append_assoc, List.singleton_append,
        add_assoc]
    · have hstep : extractStep weights values response r i = r := by
        simp [extractStep, h1]
      have hf : (i :: is).filter (fun i => response.solution i = 1)
          = is.filter (fun i => response.solution i = 1) := by
        simp [List.filter_cons, h1]
      rw [List.foldl_cons, hstep, ih _ hw hv, hf]

/-- What the function returns once the solver has answered OPTIMAL or
FEASIBLE on equally long inputs. -/
theorem solve_eq_some (solve : CpModelBuilder → CpSolverResponse)
    (weights values : List Int) (capacity : Int) (conflicts : List (Int × Int))
    (hlen : values.length = weights.length)
    (hstatus : (solve (buildModel weights values capacity conflicts)).status
        = CpSolverStatus.OPTIMAL ∨
      (solve (buildModel weights values capacity conflicts)).status
        = CpSolverStatus.FEASIBLE) :
    SolveKnapsackWithConflicts solve weights values capacity conflicts =
      some
        { picked := selectedIndices weights.length
            (solve (buildModel weights values capacity conflicts)).solution
          total_weight := wrap64 (sumAt weights (selectedIndices weights.length
            (solve (buildModel weights values capacity conflicts)).solution))
          total_value := wrap64 (sumAt values (selectedIndices weights.length
            (solve (buildModel weights values capacity conflicts)).solution)) } := by
  have hne : ¬ ((solve (buildModel weights values capacity conflicts)).status
        ≠ CpSolverStatus.OPTIMAL ∧
      (solve (buildModel weights values capacity conflicts)).status
        ≠ CpSolverStatus.FEASIBLE) := by
    rcases hstatus with h | h <;> simp [h]
  unfold SolveKnapsackWithConflicts
  simp only [hlen, ne_eq, not_true_eq_false, if_false]
  rw [if_neg hne, foldl_extractStep _ _ _ _ _ (by simp [wrap64]) (by simp [wrap64])]
  simp [selectedIndices]

/-! ## Lemmas on the constraint list -/

theorem foldl_addConflict (n : Nat) (conflicts : List (Int × Int)) (cs : List Constraint) :
    conflicts.foldl (addConflict n) cs = cs ++ conflicts.filterMap (conflictConstraint n) := by
  induction conflicts generalizing cs with
  | nil => simp
  | cons c rest ih =>
    rw [List.foldl_cons, ih]
    have key : addConflict n cs c = cs ++ (conflictConstraint n c).toList := by
      by_cases h1 : c.1 < 0 ∨ c.2 < 0 ∨ c.1 ≥ (n : Int) ∨ c.2 ≥ (n : Int)
      · simp only [addConflict, conflictConstraint, if_pos h1]
        simp
      · by_cases h2 : c.1 = c.2
        · simp only [addConflict, conflictConstraint, if_neg h1, if_pos h2]
          simp
        · simp only [addConflict, conflictConstraint, if_neg h1, if_neg h2]
          simp
    rw [key]
    cases hcc : conflictConstraint n c with
    | none => simp [List.filterMap_cons_none hcc]
    | some k => simp [List.filterMap_cons_some hcc]

theorem buildModel_constraints (weights values : List Int) (capacity : Int)
    (conflicts : List (Int × Int)) :
    (buildModel weights values capacity conflicts).constraints =
      Constraint.lessOrEqual
          ((List.range weights.length).map (fun i => (weights.getD i 0, i))) capacity
        :: conflicts.filterMap (conflictConstraint weights.length) := by
  simp [buildModel, foldl_addConflict, foldl_addTerm]

theorem buildModel_numVars (weights values : List Int) (capacity : Int)
    (conflicts : List (Int × Int)) :
    (buildModel weights values capacity conflicts).numVars = weights.length := rfl

/-- A feasible assignment of the built model respects the capacity. -/
theorem feasible_capacity (weights values : List Int) (capacity : Int)
    (conflicts : List (Int × Int)) (a : Nat → Int)
    (h : Feasible (buildModel weights values capacity conflicts) a) :
    sumAt weights (selectedIndices weights.length a) ≤ capacity := by
  obtain ⟨h01, hc⟩ := h
  have hcap := hc (Constraint.lessOrEqual
      ((List.range weights.length).map (fun i => (weights.getD i 0, i))) capacity)
    (by rw [buildModel_constraints]; exact List.mem_cons_self _ _)
  have h01' : ∀ i ∈ List.range weights.length, a i = 0 ∨ a i = 1 := by
    intro i hi
    exact h01 i (by simpa [buildModel_numVars] using hi)
  simp only [Constraint.holds] at hcap
  rw [eval_terms_eq_sumAt weights a _ h01'] at hcap
  exact hcap

theorem mem_selectedIndices (n : Nat) (a : Nat → Int) (i : Nat) :
    i ∈ selectedIndices n a ↔ i < n ∧ a i = 1 := by
  simp [selectedIndices]

/-- A feasible assignment of the built model gives value 0 to `i` when the
self-pair `(i, i)` is listed and in range. -/
theorem feasible_self_pair (weights values : List Int) (capacity : Int)
    (conflicts : List (Int × Int)) (a : Nat → Int)
    (h : Feasible (buildModel weights values capacity conflicts) a)
    (i : Nat) (hi : i < weights.length) (hmem : ((i : Int), (i : Int)) ∈ conflicts) :
    a i = 0 := by
  have hc := h.2 (Constraint.equality [(1, i)] 0) (by
    rw [buildModel_constraints]
    apply List.mem_cons_of_mem
    rw [List.mem_filterMap]
    refine ⟨((i : Int), (i : Int)), hmem, ?_⟩
    have h1 : ¬ ((i : Int) < 0 ∨ (i : Int) < 0 ∨ (i : Int) ≥ (weights.length : Int)
        ∨ (i : Int) ≥ (weights.length : Int)) := by omega
    simp only [conflictConstraint, if_neg h1]
    simp)
  simpa [Constraint.holds, LinearExpr.eval] using hc

/-- A feasible assignment of the built model gives value 1 to at most one
index of a listed in-range pair of distinct indices. -/
theorem feasible_pair (weights values : List Int) (capacity : Int)
    (conflicts : List (Int × Int)) (a : Nat → Int)
    (h : Feasible (buildModel weights values capacity conflicts) a)
    (i j : Nat) (hi : i < weights.length) (hj : j < weights.length) (hij : i ≠ j)
    (hmem : ((i : Int), (j : Int)) ∈ conflicts) :
    a i + a j ≤ 1 := by
  have hc := h.2 (Constraint.lessOrEqual [(1, i), (1, j)] 1) (by
    rw [buildModel_constraints]
    apply List.mem_cons_of_mem
    rw [List.mem_filterMap]
    refine ⟨((i : Int), (j : Int)), hmem, ?_⟩
    have h1 : ¬ ((i : Int) < 0 ∨ (j : Int) < 0 ∨ (i : Int) ≥ (weights.length : Int)
        ∨ (j : Int) ≥ (weights.length : Int)) := by omega
    have h2 : ¬ ((i : Int) = (j : Int)) := by omega
    simp only [conflictConstraint, if_neg h1, if_neg h2]
    simp)
  simpa [Constraint.holds, LinearExpr.eval] using hc

/-- Dropping the out-of-range pairs does not change the constraints. -/
theorem filterMap_conflictConstraint_filter (n : Nat) (conflicts : List (Int × Int)) :
    (conflicts.filter (pairInRange n)).filterMap (conflictConstraint n)
      = conflicts.filterMap (conflictConstraint n) := by
  induction conflicts with
  | nil => simp
  | cons c rest ih =>
    by_cases h1 : c.1 < 0 ∨ c.2 < 0 ∨ c.1 ≥ (n : Int) ∨ c.2 ≥ (n : Int)
    · have hp : pairInRange n c = false := by simp [pairInRange, h1]
      have hn : conflictConstraint n c = none := by simp [conflictConstraint, h1]
      rw [List.filter_cons_of_neg (by simp [hp]), List.filterMap_cons_none hn, ih]
    · have hp : pairInRange n c = true := by simp [pairInRange, h1]
      rw [List.filter_cons_of_pos hp]
      cases hcc : conflictConstraint n c with
      | none => rw [List.filterMap_cons_none hcc, List.filterMap_cons_none hcc, ih]
      | some k => rw [List.filterMap_cons_some hcc, List.filterMap_cons_some hcc, ih]

theorem buildModel_filter (weights values : List Int) (capacity : Int)
    (conflicts : List (Int × Int)) :
    buildModel weights values capacity (conflicts.filter (pairInRange weights.length))
      = buildModel weights values capacity conflicts := by
  simp [buildModel, foldl_addConflict, filterMap_conflictConstraint_filter]

/-! ## Claims on `SolveKnapsackWithConflicts` -/

/-- C1: on equally long inputs of type `int`, when the solver answers OPTIMAL or
FEASIBLE with a 0/1 assignment that satisfies every constraint of the built
model, the function returns a result whose `total_weight` is the sum of
`weights[i]` over the picked indices and does not exceed the capacity. -/
theorem C1_total_weight_le_capacity (solve : CpModelBuilder → CpSolverResponse)
    (weights values : List Int) (capacity : Int) (conflicts : List (Int × Int))
    (hlen : values.length = weights.length)
    (hn : weights.length < 2 ^ 31)
    (hw : ∀ w ∈ weights, InIntRange w)
    (hstatus : (solve (buildModel weights values capacity conflicts)).status
        = CpSolverStatus.OPTIMAL ∨
      (solve (buildModel weights values capacity conflicts)).status
        = CpSolverStatus.FEASIBLE)
    (hfeas : Feasible (buildModel weights values capacity conflicts)
      (solve (buildModel weights values capacity conflicts)).solution) :
    ∃ r, SolveKnapsackWithConflicts solve weights values capacity conflicts = some r ∧
      r.total_weight = sumAt weights r.picked ∧ r.total_weight ≤ capacity := by
  refine ⟨_, solve_eq_some solve weights values capacity conflicts hlen hstatus, ?_, ?_⟩
  · exact wrap64_sumAt_selected weights hw _ hn _
  · show wrap64 _ ≤ capacity
    rw [wrap64_sumAt_selected weights hw _ hn _]
    exact feasible_capacity weights values capacity conflicts _ hfeas

/-- C1 at the scenario items with capacity 5, the solver picking items 0 and 1. -/
theorem C1_total_weight_le_capacity_witness :
    (scenarioValues.length = scenarioWeights.length ∧
      scenarioWeights.length < 2 ^ 31 ∧
      (∀ w ∈ scenarioWeights, InIntRange w) ∧
      Feasible (buildModel scenarioWeights scenarioValues 5 [])
        (fun i => if i < 2 then 1 else 0)) ∧
    ∃ r, SolveKnapsackWithConflicts
        (constSolver CpSolverStatus.OPTIMAL (fun i => if i < 2 then 1 else 0))
        scenarioWeights scenarioValues 5 [] = some r ∧
      r.total_weight = sumAt scenarioWeights r.picked ∧ r.total_weight ≤ 5 :=
  ⟨⟨by decide, by decide, by decide, by decide⟩,
    C1_total_weight_le_capacity
      (constSolver CpSolverStatus.OPTIMAL (fun i => if i < 2 then 1 else 0))
      scenarioWeights scenarioValues 5 [] (by decide) (by decide) (by decide)
      (Or.inl rfl) (by decide)⟩

/-- C2: when the solver answers OPTIMAL or FEASIBLE with a 0/1 assignment that
satisfies every constraint of the built model, the returned picked list has no
two distinct indices `i`, `j` with `(i, j)` or `(j, i)` in the conflict list. -/
theorem C2_no_conflicting_pair_picked (solve : CpModelBuilder → CpSolverResponse)
    (weights values : List Int) (capacity : Int) (conflicts : List (Int × Int))
    (hlen : values.length = weights.length)
    (hstatus : (solve (buildModel weights values capacity conflicts)).status
        = CpSolverStatus.OPTIMAL ∨
      (solve (buildModel weights values capacity conflicts)).status
        = CpSolverStatus.FEASIBLE)
    (hfeas : Feasible (buildModel weights values capacity conflicts)
      (solve (buildModel weights values capacity conflicts)).solution) :
    ∃ r, SolveKnapsackWithConflicts solve weights values capacity conflicts = some r ∧
      ∀ i j : Nat, i ≠ j → i ∈ r.picked → j ∈ r.picked →
        ((i : Int), (j : Int)) ∉ conflicts ∧ ((j : Int), (i : Int)) ∉ conflicts := by
  refine ⟨_, solve_eq_some solve weights values capacity conflicts hlen hstatus, ?_⟩
  intro i j hij hi hj
  obtain ⟨hi_lt, hi1⟩ := (mem_selectedIndices _ _ _).1 hi
  obtain ⟨hj_lt, hj1⟩ := (mem_selectedIndices _ _ _).1 hj
  constructor
  · intro hmem
    have := feasible_pair weights values capacity conflicts _ hfeas i j hi_lt hj_lt hij hmem
    omega
  · intro hmem
    have := feasible_pair weights values capacity conflicts _ hfeas j i hj_lt hi_lt
      (Ne.symm hij) hmem
    omega

/-- C2 at the scenario items with capacity 10 and the conflict (0, 1), the
solver picking items 1 and 2. -/
theorem C2_no_conflicting_pair_picked_witness :
    (scenarioValues.length = scenarioWeights.length ∧
      Feasible (buildModel scenarioWeights scenarioValues 10 [(0, 1)])
        (fun i => if i = 0 then 0 else 1)) ∧
    ∃ r, SolveKnapsackWithConflicts
        (constSolver CpSolverStatus.FEASIBLE (fun i => if i = 0 then 0 else 1))
        scenarioWeights scenarioValues 10 [(0, 1)] = some r ∧
      ∀ i j : Nat, i ≠ j → i ∈ r.picked → j ∈ r.picked →
        ((i : Int), (j : Int)) ∉ [((0 : Int), (1 : Int))] ∧
          ((j : Int), (i : Int)) ∉ [((0 : Int), (1 : Int))] :=
  ⟨⟨by decide, by decide⟩,
    C2_no_conflicting_pair_picked
      (constSolver CpSolverStatus.FEASIBLE (fun i => if i = 0 then 0 else 1))
      scenarioWeights scenarioValues 10 [(0, 1)] (by decide) (Or.inr rfl) (by decide)⟩

theorem selectedIndices_three (a : Nat → Int) (h0 : a 0 = 0) (h1 : a 1 = 1)
    (h2 : a 2 = 1) : selectedIndices 3 a = [1, 2] := by
  simp [selectedIndices, List.range, List.range.loop, List.filter, h0, h1, h2]

/-- The assignment that picks items 1 and 2 only. -/
theorem scenarioC_feasible :
    Feasible (buildModel scenarioWeights scenarioValues 10 [(0, 0)])
      (fun i => if i = 0 then 0 else 1) := by decide

/-- Every optimal assignment of the scenario C model is 0 on item 0 and 1 on
items 1 and 2. -/
theorem scenarioC_optimal_values (a : Nat → Int)
    (h : Optimal (buildModel scenarioWeights scenarioValues 10 [(0, 0)]) a) :
    a 0 = 0 ∧ a 1 = 1 ∧ a 2 = 1 := by
  obtain ⟨hfeas, hopt⟩ := h
  have h0 : a 0 = 0 :=
    feasible_self_pair scenarioWeights scenarioValues 10 [(0, 0)] a hfeas 0
      (by decide) (by decide)
  have h1 : a 1 = 0 ∨ a 1 = 1 := hfeas.1 1 (by decide)
  have h2 : a 2 = 0 ∨ a 2 = 1 := hfeas.1 2 (by decide)
  have hb := hopt _ scenarioC_feasible
  have hobj : (buildModel scenarioWeights scenarioValues 10 [(0, 0)]).objective
      = [(3, 0), (4, 1), (5, 2)] := by decide
  rw [hobj] at hb
  simp [LinearExpr.eval] at hb
  refine ⟨h0, ?_, ?_⟩ <;> omega

/-- The assignment that picks items 1 and 2 is optimal for scenario C. -/
theorem scenarioC_optimal :
    Optimal (buildModel scenarioWeights scenarioValues 10 [(0, 0)])
      (fun i => if i = 0 then 0 else 1) := by
  refine ⟨scenarioC_feasible, ?_⟩
  intro b hb
  have h0 : b 0 = 0 :=
    feasible_self_pair scenarioWeights scenarioValues 10 [(0, 0)] b hb 0
      (by decide) (by decide)
  have h1 : b 1 = 0 ∨ b 1 = 1 := hb.1 1 (by decide)
  have h2 : b 2 = 0 ∨ b 2 = 1 := hb.1 2 (by decide)
  have hobj : (buildModel scenarioWeights scenarioValues 10 [(0, 0)]).objective
      = [(3, 0), (4, 1), (5, 2)] := by decide
  rw [hobj]
  simp [LinearExpr.eval]
  omega

/-- C3: when the conflict list contains an in-range self-pair `(i, i)` and the
solver answers OPTIMAL or FEASIBLE with a 0/1 assignment that satisfies every
constraint of the built model, index `i` is not in the returned picked list;
and for the scenario items with capacity 10 and conflict (0, 0), an optimal
assignment exists and every solver answer OPTIMAL with an optimal assignment
yields the picked list `[1, 2]` (weight 7, value 9). -/
theorem C3_self_pair_excluded :
    (∀ (solve : CpModelBuilder → CpSolverResponse)
      (weights values : List Int) (capacity : Int) (conflicts : List (Int × Int)) (i : Nat),
      values.length = weights.length →
      i < weights.length →
      ((i : Int), (i : Int)) ∈ conflicts →
      ((solve (buildModel weights values capacity conflicts)).status
          = CpSolverStatus.OPTIMAL ∨
        (solve (buildModel weights values capacity conflicts)).status
          = CpSolverStatus.FEASIBLE) →
      Feasible (buildModel weights values capacity conflicts)
        (solve (buildModel weights values capacity conflicts)).solution →
      ∃ r, SolveKnapsackWithConflicts solve weights values capacity conflicts = some r ∧
        i ∉ r.picked) ∧
    (∃ a, Optimal (buildModel scenarioWeights scenarioValues 10 [(0, 0)]) a) ∧
    (∀ solve : CpModelBuilder → CpSolverResponse,
      (solve (buildModel scenarioWeights scenarioValues 10 [(0, 0)])).status
        = CpSolverStatus.OPTIMAL →
      Optimal (buildModel scenarioWeights scenarioValues 10 [(0, 0)])
        (solve (buildModel scenarioWeights scenarioValues 10 [(0, 0)])).solution →
      SolveKnapsackWithConflicts solve scenarioWeights scenarioValues 10 [(0, 0)]
        = some { picked := [1, 2], total_weight := 7, total_value := 9 }) := by
  refine ⟨?_, ⟨_, scenarioC_optimal⟩, ?_⟩
  · intro solve weights values capacity conflicts i hlen hi hmem hstatus hfeas
    refine ⟨_, solve_eq_some solve weights values capacity conflicts hlen hstatus, ?_⟩
    intro hpick
    obtain ⟨_, h1⟩ := (mem_selectedIndices _ _ _).1 hpick
    have h0 := feasible_self_pair weights values capacity conflicts _ hfeas i hi hmem
    omega
  · intro solve hstatus hopt
    obtain ⟨h0, h1, h2⟩ := scenarioC_optimal_values _ hopt
    rw [solve_eq_some solve scenarioWeights scenarioValues 10 [(0, 0)] (by decide)
      (Or.inl hstatus)]
    rw [show scenarioWeights.length = 3 from rfl, selectedIndices_three _ h0 h1 h2]
    decide

/-- C3 at the scenario items with capacity 10 and the self-pair (0, 0), the
solver picking items 1 and 2. -/
theorem C3_self_pair_excluded_witness :
    (scenarioValues.length = scenarioWeights.length ∧
      0 < scenarioWeights.length ∧
      (((0 : Nat) : Int), ((0 : Nat) : Int)) ∈ [((0 : Int), (0 : Int))] ∧
      Feasible (buildModel scenarioWeights scenarioValues 10 [(0, 0)])
        (fun i => if i = 0 then 0 else 1)) ∧
    ∃ r, SolveKnapsackWithConflicts
        (constSolver CpSolverStatus.OPTIMAL (fun i => if i = 0 then 0 else 1))
        scenarioWeights scenarioValues 10 [(0, 0)] = some r ∧ 0 ∉ r.picked :=
  ⟨⟨by decide, by decide, by decide, by decide⟩,
    C3_self_pair_excluded.1
      (constSolver CpSolverStatus.OPTIMAL (fun i => if i = 0 then 0 else 1))
      scenarioWeights scenarioValues 10 [(0, 0)] 0 (by decide) (by decide) (by decide)
      (Or.inl rfl) (by decide)⟩

/-- C4: on equally long inputs of type `int` with fewer than `2^31` items, when
the solver answers OPTIMAL or FEASIBLE the function returns a result whose
`picked` is exactly the list of indices below `n` with assigned value 1, whose
`total_weight` is the exact sum of `weights[i]` over `picked`, and whose
`total_value` is the exact sum of `values[i]` over `picked`. -/
theorem C4_result_fields (solve : CpModelBuilder → CpSolverResponse)
    (weights values : List Int) (capacity : Int) (conflicts : List (Int × Int))
    (hlen : values.length = weights.length)
    (hn : weights.length < 2 ^ 31)
    (hw : ∀ w ∈ weights, InIntRange w)
    (hv : ∀ v ∈ values, InIntRange v)
    (hstatus : (solve (buildModel weights values capacity conflicts)).status
        = CpSolverStatus.OPTIMAL ∨
      (solve (buildModel weights values capacity conflicts)).status
        = CpSolverStatus.FEASIBLE) :
    ∃ r, SolveKnapsackWithConflicts solve weights values capacity conflicts = some r ∧
      r.picked = selectedIndices weights.length
        (solve (buildModel weights values capacity conflicts)).solution ∧
      (∀ i, i ∈ r.picked ↔ i < weights.length ∧
        (solve (buildModel weights values capacity conflicts)).solution i = 1) ∧
      r.picked.Nodup ∧
      r.total_weight = sumAt weights r.picked ∧
      r.total_value = sumAt values r.picked := by
  refine ⟨_, solve_eq_some solve weights values capacity conflicts hlen hstatus, rfl,
    ?_, ?_, ?_, ?_⟩
  · intro i
    exact mem_selectedIndices _ _ i
  · exact (List.nodup_range _).filter _
  · exact wrap64_sumAt_selected weights hw _ hn _
  · exact wrap64_sumAt_selected values hv _ hn _

/-- C4 at the scenario items, the solver answering FEASIBLE with item 2 only. -/
theorem C4_result_fields_witness :
    (scenarioValues.length = scenarioWeights.length ∧
      scenarioWeights.length < 2 ^ 31 ∧
      (∀ w ∈ scenarioWeights, InIntRange w) ∧
      (∀ v ∈ scenarioValues, InIntRange v)) ∧
    ∃ r, SolveKnapsackWithConflicts
        (constSolver CpSolverStatus.FEASIBLE (fun i => if i = 2 then 1 else 0))
        scenarioWeights scenarioValues 5 [(0, 1)] = some r ∧
      r.picked = selectedIndices scenarioWeights.length (fun i => if i = 2 then 1 else 0) ∧
      (∀ i, i ∈ r.picked ↔ i < scenarioWeights.length ∧
        (fun i => if i = 2 then (1 : Int) else 0) i = 1) ∧
      r.picked.Nodup ∧
      r.total_weight = sumAt scenarioWeights r.picked ∧
      r.total_value = sumAt scenarioValues r.picked :=
  ⟨⟨by decide, by decide, by decide, by decide⟩,
    C4_result_fields
      (constSolver CpSolverStatus.FEASIBLE (fun i => if i = 2 then 1 else 0))
      scenarioWeights scenarioValues 5 [(0, 1)] (by decide) (by decide) (by decide)
      (by decide) (Or.inr rfl)⟩

/-- C8: the model built from a conflict list equals the model built from the
list with every pair having `i < 0`, `j < 0`, `i >= n` or `j >= n` removed, so
the feasible assignments, the optimal assignments and the value returned by
`SolveKnapsackWithConflicts` are the same; the pair (5, 7) on the three
scenario items gives the model of the empty conflict list. The function is
total, so no pair raises an error. -/
theorem C8_out_of_range_pairs_dropped (weights values : List Int) (capacity : Int)
    (conflicts : List (Int × Int)) :
    buildModel weights values capacity conflicts
      = buildModel weights values capacity (conflicts.filter (pairInRange weights.length)) ∧
    (∀ a, Feasible (buildModel weights values capacity conflicts) a ↔
      Feasible (buildModel weights values capacity
        (conflicts.filter (pairInRange weights.length))) a) ∧
    (∀ a, Optimal (buildModel weights values capacity conflicts) a ↔
      Optimal (buildModel weights values capacity
        (conflicts.filter (pairInRange weights.length))) a) ∧
    (∀ solve, SolveKnapsackWithConflicts solve weights values capacity conflicts
      = SolveKnapsackWithConflicts solve weights values capacity
        (conflicts.filter (pairInRange weights.length))) ∧
    buildModel scenarioWeights scenarioValues 5 [(5, 7)]
      = buildModel scenarioWeights scenarioValues 5 [] := by
  have h := buildModel_filter weights values capacity conflicts
  refine ⟨h.symm, ?_, ?_, ?_, ?_⟩
  · intro a; rw [h]
  · intro a; rw [h]
  · intro solve
    unfold SolveKnapsackWithConflicts
    rw [h]
  · decide

/-! ## Claims on `ParseKnapsackFile` -/

/-- C5: the parse does not complete for every file that can be opened. A
`param n :=` line with a non-numeric or empty right-hand side, and a
`param c :=` line with a value outside the range of `int`, make `std::stoi`
throw; the exception leaves `ParseKnapsackFile` instead of a returned
`true`. -/
theorem C5_stoi_exception_escapes :
    ParseKnapsackFile (oneFile "param n := abc;\n".toList) "inst.txt".toList [] [] 0 []
      = .error StoiError.invalid_argument ∧
    ParseKnapsackFile (oneFile "param n := ;\n".toList) "inst.txt".toList [] [] 0 []
      = .error StoiError.invalid_argument ∧
    ParseKnapsackFile (oneFile "param c := 99999999999;\n".toList) "inst.txt".toList [] [] 0 []
      = .error StoiError.out_of_range :=
  ⟨rfl, rfl, rfl⟩

theorem wrap32_of_range (z : Int) (h1 : 0 ≤ z) (h2 : z < 2 ^ 31) : wrap32 z = z := by
  unfold wrap32; omega

theorem startsWith_param_of_skip (line : List Char)
    (h : (line.isEmpty || StartsWith line "#".toList) = true) :
    StartsWith line "param n :=".toList = false := by
  cases line with
  | nil => rfl
  | cons c rest =>
    have hc : '#' = c := by
      simpa [StartsWith, List.isPrefixOf] using h
    subst hc
    rfl

theorem dataLine_num_items (v : ParseVars) (line : List Char) :
    (dataLine v line).num_items = v.num_items := by
  unfold dataLine
  cases v.state with
  | none => rfl
  | items =>
    simp only
    cases extractThree line with
    | none => rfl
    | some t => rfl
  | conflicts =>
    simp only
    cases extractTwo line with
    | none => rfl
    | some t => rfl

/-- How one loop iteration changes `num_items`. -/
theorem processLine_num_items (v v' : ParseVars) (raw : List Char)
    (h : processLine v raw = .ok v') :
    v'.num_items =
      if StartsWith (Trim raw) "param n :=".toList then
        match stoi (paramArgument (Trim raw)) with
        | .ok n => n
        | .error _ => v.num_items
      else v.num_items := by
  unfold processLine at h
  simp only at h
  by_cases hskip : ((Trim raw).isEmpty || StartsWith (Trim raw) "#".toList) = true
  · rw [if_pos hskip] at h
    rw [startsWith_param_of_skip _ hskip]
    cases h
    rfl
  · rw [if_neg hskip] at h
    by_cases hn : StartsWith (Trim raw) "param n :=".toList = true
    · rw [if_pos hn] at h
      rw [if_pos hn]
      cases hs : stoi (paramArgument (Trim raw)) with
      | error e => rw [hs] at h; cases h
      | ok n =>
        rw [hs] at h
        cases h
        simp [dataLine_num_items]
    · rw [if_neg hn] at h
      rw [if_neg hn]
      by_cases hc : StartsWith (Trim raw) "param c :=".toList = true
      · rw [if_pos hc] at h
        cases hs : stoi (paramArgument (Trim raw)) with
        | error e => rw [hs] at h; cases h
        | ok n =>
          rw [hs] at h
          cases h
          simp [dataLine_num_items]
      · rw [if_neg hc] at h
        by_cases hv : StartsWith (Trim raw) "param : V : p w :=".toList = true
        · rw [if_pos hv] at h; cases h; rfl
        · rw [if_neg hv] at h
          by_cases he : StartsWith (Trim raw) "set E :=".toList = true
          · rw [if_pos he] at h; cases h; rfl
          · rw [if_neg he] at h
            by_cases hsemi : Trim raw = ";".toList
            · rw [if_pos hsemi] at h; cases h; rfl
            · rw [if_neg hsemi] at h; cases h
              exact dataLine_num_items _ _

/-- After a completed scan `num_items` holds the declared count, or its
initial value when the file declares none. -/
theorem scanLines_num_items (lines : List (List Char)) (v v' : ParseVars)
    (h : scanLines v lines = .ok v') :
    v'.num_items = (declaredCount lines).getD v.num_items := by
  induction lines generalizing v with
  | nil =>
    simp only [scanLines] at h
    cases h
    rfl
  | cons raw rest ih =>
    simp only [scanLines] at h
    cases hp : processLine v raw with
    | error e => rw [hp] at h; cases h
    | ok v1 =>
      rw [hp] at h
      have h1 := processLine_num_items v v1 raw hp
      have h2 := ih v1 h
      rw [h2]
      simp only [declaredCount]
      cases hd : declaredCount rest with
      | some n => rfl
      | none =>
        simp only [Option.getD_none]
        rw [h1]
        by_cases hn : StartsWith (Trim raw) "param n :=".toList = true
        · simp only [if_pos hn]
          cases stoi (paramArgument (Trim raw)) <;> rfl
        · simp only [if_neg hn]
          rfl

/-- C7, as stated, fails: the file declares the count 0 with `param n := 0;`,
one item is parsed, and no warning is written. -/
theorem C7_zero_count_no_warning :
    declaredCount (getlines zeroCountText) = some 0 ∧
    (0 : Int) ≠ (([2] : List Int).length : Int) ∧
    ParseKnapsackFile (oneFile zeroCountText) "inst.txt".toList [] [] 0 []
      = .ok { ok := true, weights := [3], values := [2], capacity := 0, conflicts := [],
              warned := false } :=
  ⟨rfl, by decide, rfl⟩

/-- C7, amended: for a readable file whose scan completes, the call returns
`true` and the warning is written exactly when the declared count (taken as 0
when the file has no `param n :=` line) is non-zero and differs from the
number of entries of `values` converted to `int`; a declared count of 0 gives
no warning. -/
theorem C7_warning_iff (fs : List Char → Option (List Char)) (filepath text : List Char)
    (capacity : Int) (conflicts : List (Int × Int)) (r : ParseReturn)
    (hopen : fs filepath = some text)
    (hret : ParseKnapsackFile fs filepath [] [] capacity conflicts = .ok r) :
    r.ok = true ∧
    (r.warned = true ↔
      (declaredCount (getlines text)).getD 0 ≠ 0 ∧
        wrap32 (r.values.length : Int) ≠ (declaredCount (getlines text)).getD 0) ∧
    (r.values.length < 2 ^ 31 →
      (r.warned = true ↔
        (declaredCount (getlines text)).getD 0 ≠ 0 ∧
          (r.values.length : Int) ≠ (declaredCount (getlines text)).getD 0)) ∧
    ((declaredCount (getlines text)).getD 0 = 0 → r.warned = false) := by
  unfold ParseKnapsackFile at hret
  rw [hopen] at hret
  simp only at hret
  cases hs : scanLines
      { weights := [], values := [], capacity := capacity,
        conflicts := conflicts, state := Section.none, num_items := 0 }
      (getlines text) with
  | error e => rw [hs] at hret; cases hret
  | ok v =>
    rw [hs] at hret
    have hn := scanLines_num_items _ _ _ hs
    simp only at hn
    cases hret
    refine ⟨rfl, ?_, ?_, ?_⟩
    · simp [hn]
    · intro hlt
      have hw := wrap32_of_range (v.values.length : Int) (by omega) (by exact_mod_cast hlt)
      simp [hn, hw]
    · intro h0
      simp [hn, h0]

/-- C7 amended, at a file declaring three items and holding one. -/
theorem C7_warning_iff_witness :
    (oneFile "param n := 3;\nparam : V : p w :=\n1 2 3\n;\n".toList "inst.txt".toList
        = some "param n := 3;\nparam : V : p w :=\n1 2 3\n;\n".toList ∧
      ParseKnapsackFile (oneFile "param n := 3;\nparam : V : p w :=\n1 2 3\n;\n".toList)
        "inst.txt".toList [] [] 0 []
        = .ok { ok := true, weights := [3], values := [2], capacity := 0, conflicts := [],
                warned := true }) ∧
    (true = true ∧
      (true = true ↔
        (declaredCount (getlines "param n := 3;\nparam : V : p w :=\n1 2 3\n;\n".toList)).getD 0
            ≠ 0 ∧
          wrap32 (([2] : List Int).length : Int) ≠
            (declaredCount
              (getlines "param n := 3;\nparam : V : p w :=\n1 2 3\n;\n".toList)).getD 0) ∧
      (([2] : List Int).length < 2 ^ 31 →
        (true = true ↔
          (declaredCount
              (getlines "param n := 3;\nparam : V : p w :=\n1 2 3\n;\n".toList)).getD 0 ≠ 0 ∧
            ((([2] : List Int).length : Nat) : Int) ≠
              (declaredCount
                (getlines "param n := 3;\nparam : V : p w :=\n1 2 3\n;\n".toList)).getD 0)) ∧
      ((declaredCount (getlines "param n := 3;\nparam : V : p w :=\n1 2 3\n;\n".toList)).getD 0
        = 0 → true = false)) :=
  ⟨⟨rfl, rfl⟩,
    C7_warning_iff (oneFile "param n := 3;\nparam : V : p w :=\n1 2 3\n;\n".toList)
      "inst.txt".toList "param n := 3;\nparam : V : p w :=\n1 2 3\n;\n".toList 0 []
      { ok := true, weights := [3], values := [2], capacity := 0, conflicts := [],
        warned := true } rfl rfl⟩


/-! ## Lemmas on tokens and extraction -/

theorem isDigit_of_isSpace (c : Char) (h : isSpace c = true) : c.isDigit = false := by
  simp only [isSpace, Bool.or_eq_true, decide_eq_true_eq] at h
  rcases h with ((((h | h) | h) | h) | h) | h <;> subst h <;> rfl

theorem tokens_cons_space (c : Char) (cs : List Char) (h : isSpace c = true) :
    tokens (c :: cs) = tokens cs := by
  cases cs with
  | nil => simp [tokens, h]
  | cons d cs' => rw [tokens]; simp [h]

theorem tokens_single (c : Char) (h : isSpace c = false) : tokens [c] = [[c]] := by
  simp [tokens, h]

theorem tokens_cons_cons_space (c d : Char) (cs : List Char) (hc : isSpace c = false)
    (hd : isSpace d = true) : tokens (c :: d :: cs) = [c] :: tokens (d :: cs) := by
  rw [tokens]; simp [hc, hd]

theorem tokens_cons_cons (c d : Char) (cs : List Char) (hc : isSpace c = false)
    (hd : isSpace d = false) :
    tokens (c :: d :: cs) =
      match tokens (d :: cs) with
      | t :: ts => (c :: t) :: ts
      | [] => [[c]] := by
  rw [tokens]; simp [hc, hd]

theorem tokens_ne_nil (c : Char) (cs : List Char) (h : isSpace c = false) :
    tokens (c :: cs) ≠ [] := by
  cases cs with
  | nil => simp [tokens_single c h]
  | cons d cs' =>
    by_cases hd : isSpace d = true
    · simp [tokens_cons_cons_space c d cs' h hd]
    · have hd' : isSpace d = false := by simpa using hd
      rw [tokens_cons_cons c d cs' h hd']
      cases tokens (d :: cs') <;> simp

/-- The first token of a line, with the blanks before it and the text after
it. -/
theorem tokens_cons_split (s t : List Char) (ts : List (List Char))
    (h : tokens s = t :: ts) :
    ∃ ws r, s = ws ++ t ++ r ∧ (∀ c ∈ ws, isSpace c = true) ∧ t ≠ [] ∧
      (∀ c ∈ t, isSpace c = false) ∧
      (∀ c, r.head? = some c → isSpace c = true) ∧ tokens r = ts := by
  induction s generalizing t ts with
  | nil => simp [tokens] at h
  | cons c cs ih =>
    by_cases hc : isSpace c = true
    · rw [tokens_cons_space c cs hc] at h
      obtain ⟨ws, r, hs, hws, htne, ht, hr, hts⟩ := ih t ts h
      refine ⟨c :: ws, r, by simp [hs], ?_, htne, ht, hr, hts⟩
      intro x hx
      rcases List.mem_cons.1 hx with rfl | hx
      · exact hc
      · exact hws x hx
    · have hc' : isSpace c = false := by simpa using hc
      cases cs with
      | nil =>
        rw [tokens_single c hc'] at h
        injection h with h1 h2
        subst h1; subst h2
        exact ⟨[], [], by simp, by simp, by simp, by simpa using hc', by simp, rfl⟩
      | cons d cs' =>
        by_cases hd : isSpace d = true
        · rw [tokens_cons_cons_space c d cs' hc' hd] at h
          injection h with h1 h2
          subst h1
          refine ⟨[], d :: cs', by simp, by simp, by simp, by simpa using hc', ?_, h2⟩
          intro x hx
          simp only [List.head?_cons, Option.some.injEq] at hx
          subst hx
          exact hd
        · have hd' : isSpace d = false := by simpa using hd
          rw [tokens_cons_cons c d cs' hc' hd'] at h
          cases ht : tokens (d :: cs') with
          | nil => exact absurd ht (tokens_ne_nil d cs' hd')
          | cons t' ts' =>
            rw [ht] at h
            simp only at h
            injection h with h1 h2
            subst h1; subst h2
            obtain ⟨ws, r, hs, hws, htne, ht2, hr, hts⟩ := ih t' ts' ht
            have hwsnil : ws = [] := by
              cases ws with
              | nil => rfl
              | cons w ws' =>
                have hw : isSpace w = true := hws w (List.mem_cons_self _ _)
                have : d = w := by
                  simp only [List.cons_append] at hs
                  exact (List.cons.inj hs).1
                rw [this, hw] at hd'
                cases hd'
            subst hwsnil
            refine ⟨[], r, ?_, by simp, by simp, ?_, hr, hts⟩
            · simp only [List.nil_append] at hs
              simp [hs]
            · intro x hx
              rcases List.mem_cons.1 hx with rfl | hx
              · exact hc'
              · exact ht2 x hx

theorem takeWhile_isDigit_append (body r : List Char)
    (hb : ∀ c ∈ body, c.isDigit = true)
    (hr : ∀ c, r.head? = some c → c.isDigit = false) :
    (body ++ r).takeWhile Char.isDigit = body ∧ (body ++ r).dropWhile Char.isDigit = r := by
  induction body with
  | nil =>
    cases r with
    | nil => simp
    | cons x r' =>
      have hx := hr x rfl
      simp [List.takeWhile, List.dropWhile, hx]
  | cons b body ih =>
    have hb1 := hb b (List.mem_cons_self _ _)
    have ih' := ih (fun c hc => hb c (List.mem_cons_of_mem _ hc))
    simp [List.takeWhile, List.dropWhile, hb1, ih'.1, ih'.2]

theorem dropWhile_isSpace_append (ws l : List Char)
    (hws : ∀ c ∈ ws, isSpace c = true)
    (hl : ∀ c, l.head? = some c → isSpace c = false) :
    (ws ++ l).dropWhile isSpace = l := by
  induction ws with
  | nil =>
    cases l with
    | nil => rfl
    | cons x l' =>
      have hx := hl x rfl
      simp [List.dropWhile, hx]
  | cons w ws ih =>
    have hw := hws w (List.mem_cons_self _ _)
    have ih' := ih (fun c hc => hws c (List.mem_cons_of_mem _ hc))
    simp [List.dropWhile, hw, ih']

theorem isSpace_of_isDigit (c : Char) (h : c.isDigit = true) : isSpace c = false := by
  cases hs : isSpace c with
  | false => rfl
  | true => rw [isDigit_of_isSpace c hs] at h; cases h

theorem scanNumber_signed (ws t' r : List Char) (c : Char) (hsign : c = '-' ∨ c = '+')
    (hws : ∀ x ∈ ws, isSpace x = true)
    (hdig : ∀ x ∈ t', x.isDigit = true)
    (hr : ∀ x, r.head? = some x → x.isDigit = false) :
    scanNumber (ws ++ c :: (t' ++ r)) = (decide (c = '-'), t', r) := by
  have hns : isSpace c = false := by rcases hsign with rfl | rfl <;> rfl
  have hdrop : (ws ++ c :: (t' ++ r)).dropWhile isSpace = c :: (t' ++ r) :=
    dropWhile_isSpace_append ws _ hws (by
      intro x hx
      simp only [List.head?_cons, Option.some.injEq] at hx
      subst hx; exact hns)
  have htd := takeWhile_isDigit_append t' r hdig hr
  have hcond : (c :: (t' ++ r)).head? = some '-' ∨ (c :: (t' ++ r)).head? = some '+' := by
    simpa using hsign
  simp only [scanNumber, hdrop, if_pos hcond, List.tail_cons, htd.1, htd.2]
  simp

theorem scanNumber_unsigned (ws t' r : List Char) (c : Char) (hsign : ¬ (c = '-' ∨ c = '+'))
    (hws : ∀ x ∈ ws, isSpace x = true)
    (hdig : ∀ x ∈ c :: t', x.isDigit = true)
    (hr : ∀ x, r.head? = some x → x.isDigit = false) :
    scanNumber (ws ++ c :: (t' ++ r)) = (false, c :: t', r) := by
  have hcd : c.isDigit = true := hdig c (List.mem_cons_self _ _)
  have hns : isSpace c = false := isSpace_of_isDigit c hcd
  have hdrop : (ws ++ c :: (t' ++ r)).dropWhile isSpace = c :: (t' ++ r) :=
    dropWhile_isSpace_append ws _ hws (by
      intro x hx
      simp only [List.head?_cons, Option.some.injEq] at hx
      subst hx; exact hns)
  have htd := takeWhile_isDigit_append (c :: t') r hdig hr
  simp only [List.cons_append] at htd
  have hcond : ¬ ((c :: (t' ++ r)).head? = some '-' ∨ (c :: (t' ++ r)).head? = some '+') := by
    simpa using hsign
  have hneg : ¬ (c = '-') := fun h => hsign (Or.inl h)
  simp only [scanNumber, hdrop, if_neg hcond, htd.1, htd.2]
  simp [hneg]

/-- Extraction reads an integer token that is preceded by blanks and followed
by a character that is not a digit, and leaves the text after the token. -/
theorem extractInt_token (ws t r : List Char) (z : Int)
    (hws : ∀ c ∈ ws, isSpace c = true)
    (ht : intTokenValue t = some z)
    (hr : ∀ c, r.head? = some c → c.isDigit = false) :
    extractInt (ws ++ t ++ r) = some (z, r) := by
  cases t with
  | nil => simp [intTokenValue] at ht
  | cons c t' =>
    by_cases hsign : c = '-' ∨ c = '+'
    · have hsign' : ((c :: t').head? = some '-' ∨ (c :: t').head? = some '+') := by
        simpa using hsign
      simp only [intTokenValue, if_pos hsign', List.tail_cons] at ht
      split at ht
      · rename_i hcond
        obtain ⟨hne, hdig, hrange⟩ := hcond
        have hscan := scanNumber_signed ws t' r c hsign hws hdig hr
        have hempty : t'.isEmpty = false := by
          cases t' with
          | nil => exact absurd rfl hne
          | cons _ _ => rfl
        simp only [Option.some.injEq, List.head?_cons] at ht hrange
        unfold InIntRange at hrange
        simp only [extractInt, List.append_assoc, List.cons_append, hscan, hempty]
        rw [if_pos hrange, ht]
        simp
      · cases ht
    · have hsign' : ¬ ((c :: t').head? = some '-' ∨ (c :: t').head? = some '+') := by
        simpa using hsign
      simp only [intTokenValue, if_neg hsign'] at ht
      split at ht
      · rename_i hcond
        obtain ⟨_, hdig, hrange⟩ := hcond
        have hscan := scanNumber_unsigned ws t' r c hsign hws hdig hr
        have hneg : ¬ (c = '-') := fun h => hsign (Or.inl h)
        simp only [Option.some.injEq, List.head?_cons] at ht hrange
        have hdec : decide (c = '-') = false := by simp [hneg]
        rw [hdec] at ht hrange
        unfold InIntRange at hrange
        simp only [extractInt, List.append_assoc, List.cons_append, hscan, List.isEmpty_cons]
        rw [if_pos hrange, ht]
        simp
      · cases ht

theorem extractThree_tokens (line t1 t2 t3 : List Char) (more : List (List Char))
    (z1 z2 z3 : Int)
    (htok : tokens line = t1 :: t2 :: t3 :: more)
    (h1 : intTokenValue t1 = some z1) (h2 : intTokenValue t2 = some z2)
    (h3 : intTokenValue t3 = some z3) :
    extractThree line = some (z1, z2, z3) := by
  obtain ⟨ws1, r1, hs1, hws1, _, _, hr1, htok1⟩ := tokens_cons_split line t1 _ htok
  obtain ⟨ws2, r2, hs2, hws2, _, _, hr2, htok2⟩ := tokens_cons_split r1 t2 _ htok1
  obtain ⟨ws3, r3, hs3, hws3, _, _, hr3, _⟩ := tokens_cons_split r2 t3 _ htok2
  have e1 : extractInt line = some (z1, r1) := by
    rw [hs1]
    exact extractInt_token ws1 t1 r1 z1 hws1 h1 (fun c hc => isDigit_of_isSpace c (hr1 c hc))
  have e2 : extractInt r1 = some (z2, r2) := by
    rw [hs2]
    exact extractInt_token ws2 t2 r2 z2 hws2 h2 (fun c hc => isDigit_of_isSpace c (hr2 c hc))
  have e3 : extractInt r2 = some (z3, r3) := by
    rw [hs3]
    exact extractInt_token ws3 t3 r3 z3 hws3 h3 (fun c hc => isDigit_of_isSpace c (hr3 c hc))
  simp [extractThree, e1, e2, e3]

/-- The loop body on a line that is neither skipped nor a control line: only
the data part runs. -/
theorem processLine_data (v : ParseVars) (raw : List Char)
    (hne : (Trim raw).isEmpty = false)
    (hcomment : StartsWith (Trim raw) "#".toList = false)
    (hctl : isControlLine (Trim raw) = false) :
    processLine v raw = .ok (dataLine v (Trim raw)) := by
  simp only [isControlLine, Bool.or_eq_false_iff, decide_eq_false_iff_not] at hctl
  obtain ⟨⟨⟨⟨hn, hc⟩, hv⟩, he⟩, hsemi⟩ := hctl
  simp only [processLine, hne, hcomment, hn, hc, hv, he, Bool.or_self, Bool.false_eq_true,
    if_false, if_neg hsemi]

/-- C6, as stated, fails: the line `1 2 3 4` has four tokens and still appends
an item (value 2, weight 3); the line `1-2-3` is a single token that is not an
integer and appends an item too. -/
theorem C6_trailing_token_accepted :
    (tokens (Trim "1 2 3 4".toList) = ["1".toList, "2".toList, "3".toList, "4".toList] ∧
      isControlLine (Trim "1 2 3 4".toList) = false ∧
      processLine itemsVars "1 2 3 4".toList
        = .ok { itemsVars with values := [2], weights := [3] }) ∧
    (tokens (Trim "1-2-3".toList) = ["1-2-3".toList] ∧
      intTokenValue "1-2-3".toList = none ∧
      processLine itemsVars "1-2-3".toList
        = .ok { itemsVars with values := [-2], weights := [-3] }) :=
  ⟨⟨rfl, rfl, rfl⟩, ⟨rfl, rfl, rfl⟩⟩

/-- C6, amended: in the items section, a line that is not skipped and is not a
control line appends one item exactly when three integers can be extracted
from its front (value the second, weight the third) and otherwise leaves the
variables unchanged; in particular a line whose first three
whitespace-separated tokens are integer tokens appends the item given by the
second and third token, whatever tokens follow. -/
theorem C6_item_line (v : ParseVars) (raw : List Char)
    (hstate : v.state = Section.items)
    (hne : (Trim raw).isEmpty = false)
    (hcomment : StartsWith (Trim raw) "#".toList = false)
    (hctl : isControlLine (Trim raw) = false) :
    processLine v raw = .ok
      (match extractThree (Trim raw) with
       | some (_, value, weight) =>
         { v with values := v.values ++ [value], weights := v.weights ++ [weight] }
       | none => v) ∧
    ∀ (t1 t2 t3 : List Char) (more : List (List Char)) (z1 z2 z3 : Int),
      tokens (Trim raw) = t1 :: t2 :: t3 :: more →
      intTokenValue t1 = some z1 → intTokenValue t2 = some z2 →
      intTokenValue t3 = some z3 →
      processLine v raw
        = .ok { v with values := v.values ++ [z2], weights := v.weights ++ [z3] } := by
  have hdata := processLine_data v raw hne hcomment hctl
  constructor
  · rw [hdata]
    simp only [dataLine, hstate]
  · intro t1 t2 t3 more z1 z2 z3 htok h1 h2 h3
    rw [hdata]
    simp only [dataLine, hstate,
      extractThree_tokens (Trim raw) t1 t2 t3 more z1 z2 z3 htok h1 h2 h3]

/-- C6 amended, at the line `1 2 3 4` in an items section. -/
theorem C6_item_line_witness :
    (itemsVars.state = Section.items ∧
      (Trim "1 2 3 4".toList).isEmpty = false ∧
      StartsWith (Trim "1 2 3 4".toList) "#".toList = false ∧
      isControlLine (Trim "1 2 3 4".toList) = false) ∧
    (processLine itemsVars "1 2 3 4".toList = .ok
      (match extractThree (Trim "1 2 3 4".toList) with
       | some (_, value, weight) =>
         { itemsVars with values := itemsVars.values ++ [value],
                          weights := itemsVars.weights ++ [weight] }
       | none => itemsVars) ∧
    ∀ (t1 t2 t3 : List Char) (more : List (List Char)) (z1 z2 z3 : Int),
      tokens (Trim "1 2 3 4".toList) = t1 :: t2 :: t3 :: more →
      intTokenValue t1 = some z1 → intTokenValue t2 = some z2 →
      intTokenValue t3 = some z3 →
      processLine itemsVars "1 2 3 4".toList
        = .ok { itemsVars with values := itemsVars.values ++ [z2],
                               weights := itemsVars.weights ++ [z3] }) :=
  ⟨⟨rfl, rfl, rfl, rfl⟩, C6_item_line itemsVars "1 2 3 4".toList rfl rfl rfl rfl⟩

/-! ## Lemmas on the string order and the sort -/

theorem strLt_nil_right (a : List Char) : strLt a [] = false := by
  cases a <;> rfl

/-- The comparison `strLt` is the lexicographic order on character lists. -/
theorem strLt_iff_lex (a b : List Char) :
    strLt a b = true ↔ List.Lex (fun x y : Char => x < y) a b := by
  induction a generalizing b with
  | nil =>
    cases b with
    | nil => simp [strLt]
    | cons y bs => simp [strLt, List.Lex.nil]
  | cons x as ih =>
    cases b with
    | nil => simp [strLt]
    | cons y bs =>
      simp only [strLt, Bool.or_eq_true, Bool.and_eq_true, decide_eq_true_eq, ih]
      constructor
      · rintro (h | ⟨rfl, h⟩)
        · exact List.Lex.rel h
        · exact List.Lex.cons h
      · intro h
        cases h with
        | cons h => exact Or.inr ⟨rfl, h⟩
        | rel h => exact Or.inl h

theorem strLe_total (a b : List Char) : strLe a b ∨ strLe b a := by
  unfold strLe
  induction a generalizing b with
  | nil => exact Or.inl (strLt_nil_right b)
  | cons x as ih =>
    cases b with
    | nil => exact Or.inr (strLt_nil_right _)
    | cons y bs =>
      rcases lt_trichotomy x y with hxy | hxy | hxy
      · left
        have h1 : ¬ (y < x) := not_lt.2 (le_of_lt hxy)
        have h2 : ¬ (y = x) := fun h => (ne_of_lt hxy) h.symm
        simp [strLt, h1, h2]
      · subst hxy
        rcases ih bs with h | h
        · left; simp [strLt, h]
        · right; simp [strLt, h]
      · right
        have h1 : ¬ (x < y) := not_lt.2 (le_of_lt hxy)
        have h2 : ¬ (x = y) := fun h => (ne_of_lt hxy) h.symm
        simp [strLt, h1, h2]

theorem strLe_trans (a b c : List Char) (hab : strLe a b) (hbc : strLe b c) :
    strLe a c := by
  unfold strLe at *
  induction a generalizing b c with
  | nil => exact strLt_nil_right c
  | cons x as ih =>
    cases b with
    | nil => simp [strLt] at hab
    | cons y bs =>
      cases c with
      | nil => simp [strLt] at hbc
      | cons z cs =>
        simp only [strLt, Bool.or_eq_false_iff, Bool.and_eq_false_imp, decide_eq_false_iff_not,
          decide_eq_true_eq, not_lt] at hab hbc ⊢
        obtain ⟨hxy, h1⟩ := hab
        obtain ⟨hyz, h2⟩ := hbc
        refine ⟨le_trans hxy hyz, ?_⟩
        intro hzx
        subst hzx
        have hyx : y = z := le_antisymm hyz hxy
        exact ih bs cs (h1 hyx) (h2 hyx.symm)

theorem strLe_antisymm (a b : List Char) (hab : strLe a b) (hba : strLe b a) : a = b := by
  unfold strLe at *
  induction a generalizing b with
  | nil =>
    cases b with
    | nil => rfl
    | cons y bs => simp [strLt] at hba
  | cons x as ih =>
    cases b with
    | nil => simp [strLt] at hab
    | cons y bs =>
      simp only [strLt, Bool.or_eq_false_iff, Bool.and_eq_false_imp, decide_eq_false_iff_not,
        decide_eq_true_eq, not_lt] at hab hba
      obtain ⟨hxy, h1⟩ := hab
      obtain ⟨hyx, h2⟩ := hba
      have hxy' : x = y := le_antisymm hxy hyx
      subst hxy'
      rw [ih bs (h1 rfl) (h2 rfl)]

theorem stdSort_sorted (l : List (List Char)) : (stdSort l).Sorted strLe := by
  haveI : IsTotal (List Char) strLe := ⟨strLe_total⟩
  haveI : IsTrans (List Char) strLe := ⟨strLe_trans⟩
  exact List.sorted_insertionSort strLe l

theorem stdSort_perm (l : List (List Char)) : (stdSort l).Perm l :=
  List.perm_insertionSort strLe l

/-- Any sorted rearrangement of a vector of strings is the one `stdSort`
returns. -/
theorem stdSort_unique (l l' : List (List Char)) (hp : l'.Perm l)
    (hs : l'.Sorted strLe) : l' = stdSort l := by
  haveI : IsAntisymm (List Char) strLe := ⟨strLe_antisymm⟩
  exact List.eq_of_perm_of_sorted (hp.trans (stdSort_perm l).symm) hs (stdSort_sorted l)

theorem foldl_append_flatten (L : List (List (List Char))) (acc : List (List Char)) :
    L.foldl (fun instance_files found => instance_files ++ found) acc = acc ++ L.flatten := by
  induction L generalizing acc with
  | nil => simp
  | cons m L ih => simp [List.foldl_cons, ih]

theorem sortedMatches_perm (L : List (List (List Char))) :
    (sortedMatches L).Perm L.flatten := by
  unfold sortedMatches
  rw [foldl_append_flatten]
  simpa using stdSort_perm L.flatten

theorem sortedMatches_sorted (L : List (List (List Char))) :
    (sortedMatches L).Sorted strLe :=
  stdSort_sorted _

theorem sortedMatches_eq (L : List (List (List Char))) :
    sortedMatches L = stdSort L.flatten := by
  unfold sortedMatches
  rw [foldl_append_flatten]
  simp

/-! ## Claims on the collection of instance files -/

/-- C10: for every list of match lists the list `main` processes is in
non-decreasing order of the string comparison and is a permutation of the
concatenation of the matches; a pattern for which `glob` reports a non-zero
code yields the empty match list, and an empty match list anywhere among the
match lists leaves the result unchanged. -/
theorem C10_sorted_permutation :
    (∀ matchLists : List (List (List Char)),
      (sortedMatches matchLists).Sorted strLe ∧
      (sortedMatches matchLists).Perm matchLists.flatten) ∧
    (∀ (glob : List Char → Int × List (List Char)) (pattern : List Char),
      (glob pattern).1 ≠ 0 → Glob glob pattern = []) ∧
    (∀ before after : List (List (List Char)),
      sortedMatches (before ++ [] :: after) = sortedMatches (before ++ after)) ∧
    (∀ (glob : List Char → Int × List (List Char)) (patterns : List (List Char)),
      (collectInstanceFiles glob patterns).Sorted strLe ∧
      (collectInstanceFiles glob patterns).Perm (patterns.flatMap (Glob glob))) := by
  refine ⟨fun L => ⟨sortedMatches_sorted L, sortedMatches_perm L⟩, ?_, ?_, ?_⟩
  · intro glob pattern h
    simp [Glob, h]
  · intro before after
    simp [sortedMatches_eq]
  · intro glob patterns
    refine ⟨sortedMatches_sorted _, ?_⟩
    have h := sortedMatches_perm (patterns.map (Glob glob))
    rw [List.flatMap_def]
    exact h

/-! ## Scenarios A and B, and feasibility of the model -/

theorem scenario_objective (capacity : Int) (conflicts : List (Int × Int)) :
    (buildModel scenarioWeights scenarioValues capacity conflicts).objective
      = [(3, 0), (4, 1), (5, 2)] := rfl

theorem scenario_capacity_constraint (capacity : Int) (conflicts : List (Int × Int))
    (a : Nat → Int)
    (h : Feasible (buildModel scenarioWeights scenarioValues capacity conflicts) a) :
    2 * a 0 + 3 * a 1 + 4 * a 2 ≤ capacity := by
  have hc := h.2 (Constraint.lessOrEqual [(2, 0), (3, 1), (4, 2)] capacity) (by
    rw [buildModel_constraints]
    exact List.mem_cons_self _ _)
  simpa [Constraint.holds, LinearExpr.eval, add_assoc] using hc

theorem selectedIndices_three_01 (a : Nat → Int) (h0 : a 0 = 1) (h1 : a 1 = 1)
    (h2 : a 2 = 0) : selectedIndices 3 a = [0, 1] := by
  simp [selectedIndices, List.range, List.range.loop, List.filter, h0, h1, h2]

theorem selectedIndices_three_2 (a : Nat → Int) (h0 : a 0 = 0) (h1 : a 1 = 0)
    (h2 : a 2 = 1) : selectedIndices 3 a = [2] := by
  simp [selectedIndices, List.range, List.range.loop, List.filter, h0, h1, h2]

/-- The assignment that picks items 0 and 1 is feasible for scenario A. -/
theorem scenarioA_feasible :
    Feasible (buildModel scenarioWeights scenarioValues 5 [])
      (fun i => if i < 2 then 1 else 0) := by decide

/-- Every optimal assignment of the scenario A model picks items 0 and 1 and
leaves item 2. -/
theorem scenarioA_optimal_values (a : Nat → Int)
    (h : Optimal (buildModel scenarioWeights scenarioValues 5 []) a) :
    a 0 = 1 ∧ a 1 = 1 ∧ a 2 = 0 := by
  obtain ⟨hfeas, hopt⟩ := h
  have h0 : a 0 = 0 ∨ a 0 = 1 := hfeas.1 0 (by decide)
  have h1 : a 1 = 0 ∨ a 1 = 1 := hfeas.1 1 (by decide)
  have h2 : a 2 = 0 ∨ a 2 = 1 := hfeas.1 2 (by decide)
  have hcap := scenario_capacity_constraint 5 [] a hfeas
  have hb := hopt _ scenarioA_feasible
  rw [scenario_objective] at hb
  simp [LinearExpr.eval] at hb
  refine ⟨?_, ?_, ?_⟩ <;> omega

/-- The assignment that picks items 0 and 1 is optimal for scenario A. -/
theorem scenarioA_optimal :
    Optimal (buildModel scenarioWeights scenarioValues 5 [])
      (fun i => if i < 2 then 1 else 0) := by
  refine ⟨scenarioA_feasible, ?_⟩
  intro b hb
  have h0 : b 0 = 0 ∨ b 0 = 1 := hb.1 0 (by decide)
  have h1 : b 1 = 0 ∨ b 1 = 1 := hb.1 1 (by decide)
  have h2 : b 2 = 0 ∨ b 2 = 1 := hb.1 2 (by decide)
  have hcap := scenario_capacity_constraint 5 [] b hb
  rw [scenario_objective]
  simp [LinearExpr.eval]
  omega

/-- C11 (scenario A): for the three scenario items, capacity 5 and no
conflicts, whenever the solver answers OPTIMAL or FEASIBLE with an assignment
that satisfies the built model and maximises its objective, the function
returns `picked = [0, 1]`, `total_weight = 5`, `total_value = 7`. -/
theorem C11_scenarioA (solve : CpModelBuilder → CpSolverResponse)
    (hstatus : (solve (buildModel scenarioWeights scenarioValues 5 [])).status
        = CpSolverStatus.OPTIMAL ∨
      (solve (buildModel scenarioWeights scenarioValues 5 [])).status
        = CpSolverStatus.FEASIBLE)
    (hopt : Optimal (buildModel scenarioWeights scenarioValues 5 [])
      (solve (buildModel scenarioWeights scenarioValues 5 [])).solution) :
    SolveKnapsackWithConflicts solve scenarioWeights scenarioValues 5 []
      = some { picked := [0, 1], total_weight := 5, total_value := 7 } := by
  obtain ⟨h0, h1, h2⟩ := scenarioA_optimal_values _ hopt
  rw [solve_eq_some solve scenarioWeights scenarioValues 5 [] (by decide) hstatus]
  rw [show scenarioWeights.length = 3 from rfl, selectedIndices_three_01 _ h0 h1 h2]
  decide

/-- C11 at a solver that answers OPTIMAL with items 0 and 1. -/
theorem C11_scenarioA_witness :
    Optimal (buildModel scenarioWeights scenarioValues 5 [])
        (fun i => if i < 2 then 1 else 0) ∧
    SolveKnapsackWithConflicts
        (constSolver CpSolverStatus.OPTIMAL (fun i => if i < 2 then 1 else 0))
        scenarioWeights scenarioValues 5 []
      = some { picked := [0, 1], total_weight := 5, total_value := 7 } :=
  ⟨scenarioA_optimal,
    C11_scenarioA (constSolver CpSolverStatus.OPTIMAL (fun i => if i < 2 then 1 else 0))
      (Or.inl rfl) scenarioA_optimal⟩

/-- The assignment that picks item 2 only is feasible for scenario B. -/
theorem scenarioB_feasible :
    Feasible (buildModel scenarioWeights scenarioValues 5 [(0, 1)])
      (fun i => if i = 2 then 1 else 0) := by decide

theorem scenarioB_pair (a : Nat → Int)
    (h : Feasible (buildModel scenarioWeights scenarioValues 5 [(0, 1)]) a) :
    a 0 + a 1 ≤ 1 :=
  feasible_pair scenarioWeights scenarioValues 5 [(0, 1)] a h 0 1 (by decide) (by decide)
    (by decide) (by decide)

/-- Every optimal assignment of the scenario B model picks item 2 only. -/
theorem scenarioB_optimal_values (a : Nat → Int)
    (h : Optimal (buildModel scenarioWeights scenarioValues 5 [(0, 1)]) a) :
    a 0 = 0 ∧ a 1 = 0 ∧ a 2 = 1 := by
  obtain ⟨hfeas, hopt⟩ := h
  have h0 : a 0 = 0 ∨ a 0 = 1 := hfeas.1 0 (by decide)
  have h1 : a 1 = 0 ∨ a 1 = 1 := hfeas.1 1 (by decide)
  have h2 : a 2 = 0 ∨ a 2 = 1 := hfeas.1 2 (by decide)
  have hcap := scenario_capacity_constraint 5 [(0, 1)] a hfeas
  have hpair := scenarioB_pair a hfeas
  have hb := hopt _ scenarioB_feasible
  rw [scenario_objective] at hb
  simp [LinearExpr.eval] at hb
  refine ⟨?_, ?_, ?_⟩ <;> omega

/-- The assignment that picks item 2 only is optimal for scenario B. -/
theorem scenarioB_optimal :
    Optimal (buildModel scenarioWeights scenarioValues 5 [(0, 1)])
      (fun i => if i = 2 then 1 else 0) := by
  refine ⟨scenarioB_feasible, ?_⟩
  intro b hb
  have h0 : b 0 = 0 ∨ b 0 = 1 := hb.1 0 (by decide)
  have h1 : b 1 = 0 ∨ b 1 = 1 := hb.1 1 (by decide)
  have h2 : b 2 = 0 ∨ b 2 = 1 := hb.1 2 (by decide)
  have hcap := scenario_capacity_constraint 5 [(0, 1)] b hb
  have hpair := scenarioB_pair b hb
  rw [scenario_objective]
  simp [LinearExpr.eval]
  omega

/-- C12 (scenario B): for the three scenario items, capacity 5 and the single
conflict (0, 1), whenever the solver answers OPTIMAL or FEASIBLE with an
assignment that satisfies the built model and maximises its objective, the
function returns `picked = [2]`, `total_weight = 4`, `total_value = 5`. -/
theorem C12_scenarioB (solve : CpModelBuilder → CpSolverResponse)
    (hstatus : (solve (buildModel scenarioWeights scenarioValues 5 [(0, 1)])).status
        = CpSolverStatus.OPTIMAL ∨
      (solve (buildModel scenarioWeights scenarioValues 5 [(0, 1)])).status
        = CpSolverStatus.FEASIBLE)
    (hopt : Optimal (buildModel scenarioWeights scenarioValues 5 [(0, 1)])
      (solve (buildModel scenarioWeights scenarioValues 5 [(0, 1)])).solution) :
    SolveKnapsackWithConflicts solve scenarioWeights scenarioValues 5 [(0, 1)]
      = some { picked := [2], total_weight := 4, total_value := 5 } := by
  obtain ⟨h0, h1, h2⟩ := scenarioB_optimal_values _ hopt
  rw [solve_eq_some solve scenarioWeights scenarioValues 5 [(0, 1)] (by decide) hstatus]
  rw [show scenarioWeights.length = 3 from rfl, selectedIndices_three_2 _ h0 h1 h2]
  decide

/-- C12 at a solver that answers OPTIMAL with item 2 only. -/
theorem C12_scenarioB_witness :
    Optimal (buildModel scenarioWeights scenarioValues 5 [(0, 1)])
        (fun i => if i = 2 then 1 else 0) ∧
    SolveKnapsackWithConflicts
        (constSolver CpSolverStatus.OPTIMAL (fun i => if i = 2 then 1 else 0))
        scenarioWeights scenarioValues 5 [(0, 1)]
      = some { picked := [2], total_weight := 4, total_value := 5 } :=
  ⟨scenarioB_optimal,
    C12_scenarioB (constSolver CpSolverStatus.OPTIMAL (fun i => if i = 2 then 1 else 0))
      (Or.inl rfl) scenarioB_optimal⟩

theorem eval_zero (e : LinearExpr) : LinearExpr.eval e (fun _ => 0) = 0 := by
  induction e with
  | nil => rfl
  | cons t e ih =>
    simp only [LinearExpr.eval, List.map_cons, List.sum_cons] at ih ⊢
    rw [ih]
    simp

theorem conflictConstraint_holds_zero (n : Nat) (conflict : Int × Int) (c : Constraint)
    (h : conflictConstraint n conflict = some c) : c.holds (fun _ => 0) := by
  unfold conflictConstraint at h
  split at h
  · cases h
  · split at h
    · cases h
      simp [Constraint.holds, eval_zero]
    · cases h
      simp [Constraint.holds, eval_zero]

theorem sumAt_nonneg (xs : List Int) (h : ∀ x ∈ xs, 0 ≤ x) (idx : List Nat) :
    0 ≤ sumAt xs idx := by
  induction idx with
  | nil => simp [sumAt]
  | cons i idx ih =>
    have hi : 0 ≤ xs.getD i 0 := by
      by_cases hlt : i < xs.length
      · rw [List.getD_eq_getElem _ _ hlt]
        exact h _ (List.getElem_mem hlt)
      · rw [List.getD_eq_default _ _ (by omega)]
    simp only [sumAt, List.map_cons, List.sum_cons] at ih ⊢
    omega

/-- C19: for every instance with capacity at least 0 the all-zero assignment
satisfies every constraint of the built model, so a feasible assignment
exists; when the capacity is negative and no weight is negative, no assignment
satisfies the model. -/
theorem C19_zero_assignment_feasible (weights values : List Int) (capacity : Int)
    (conflicts : List (Int × Int)) :
    (0 ≤ capacity →
      Feasible (buildModel weights values capacity conflicts) (fun _ => 0) ∧
      ∃ a, Feasible (buildModel weights values capacity conflicts) a) ∧
    (capacity < 0 → (∀ w ∈ weights, 0 ≤ w) →
      ∀ a, ¬ Feasible (buildModel weights values capacity conflicts) a) := by
  constructor
  · intro hcap
    have hz : Feasible (buildModel weights values capacity conflicts) (fun _ => 0) := by
      refine ⟨fun i _ => Or.inl rfl, ?_⟩
      intro c hc
      rw [buildModel_constraints] at hc
      rcases List.mem_cons.1 hc with rfl | hc
      · simpa [Constraint.holds, eval_zero] using hcap
      · obtain ⟨conflict, _, hcc⟩ := List.mem_filterMap.1 hc
        exact conflictConstraint_holds_zero _ conflict c hcc
    exact ⟨hz, _, hz⟩
  · intro hneg hw a hfeas
    have h1 := feasible_capacity weights values capacity conflicts a hfeas
    have h2 := sumAt_nonneg weights hw (selectedIndices weights.length a)
    omega

/-- C19 at an instance with a negative weight, a self-pair and an out-of-range
pair (capacity 0), and at the scenario items with capacity -1. -/
theorem C19_zero_assignment_feasible_witness :
    ((0 : Int) ≤ 0 ∧
      Feasible (buildModel [-2, 3] [1, 1] 0 [(0, 0), (5, 7), (0, 1)]) (fun _ => 0)) ∧
    (((-1 : Int) < 0 ∧ ∀ w ∈ scenarioWeights, (0 : Int) ≤ w) ∧
      ∀ a, ¬ Feasible (buildModel scenarioWeights scenarioValues (-1) []) a) :=
  ⟨⟨by decide,
      ((C19_zero_assignment_feasible [-2, 3] [1, 1] 0 [(0, 0), (5, 7), (0, 1)]).1
        (by decide)).1⟩,
    ⟨⟨by decide, by decide⟩,
      (C19_zero_assignment_feasible scenarioWeights scenarioValues (-1) []).2
        (by decide) (by decide)⟩⟩

/-! ## Lemmas on the loop body of the parser -/

/-- The possible results of one loop iteration that does not throw. -/
theorem processLine_ok_cases (v v' : ParseVars) (raw : List Char)
    (h : processLine v raw = .ok v') :
    v' = v ∨
    (∃ n, v' = dataLine { v with num_items := n } (Trim raw)) ∨
    (∃ c, v' = dataLine { v with capacity := c } (Trim raw)) ∨
    v' = { v with state := Section.items } ∨
    v' = { v with state := Section.conflicts } ∨
    v' = { v with state := Section.none } ∨
    v' = dataLine v (Trim raw) := by
  unfold processLine at h
  simp only at h
  split at h
  · cases h; exact Or.inl rfl
  · split at h
    · cases hs : stoi (paramArgument (Trim raw)) with
      | error e => rw [hs] at h; cases h
      | ok n => rw [hs] at h; cases h; exact Or.inr (Or.inl ⟨n, rfl⟩)
    · split at h
      · cases hs : stoi (paramArgument (Trim raw)) with
        | error e => rw [hs] at h; cases h
        | ok c => rw [hs] at h; cases h; exact Or.inr (Or.inr (Or.inl ⟨c, rfl⟩))
      · split at h
        · cases h; exact Or.inr (Or.inr (Or.inr (Or.inl rfl)))
        · split at h
          · cases h; exact Or.inr (Or.inr (Or.inr (Or.inr (Or.inl rfl))))
          · split at h
            · cases h; exact Or.inr (Or.inr (Or.inr (Or.inr (Or.inr (Or.inl rfl)))))
            · cases h; exact Or.inr (Or.inr (Or.inr (Or.inr (Or.inr (Or.inr rfl)))))

/-- The data part appends to `values` and `weights` together or to neither. -/
theorem dataLine_lengths (v : ParseVars) (line : List Char)
    (h : v.values.length = v.weights.length) :
    (dataLine v line).values.length = (dataLine v line).weights.length := by
  unfold dataLine
  cases v.state with
  | none => exact h
  | items =>
    simp only
    cases extractThree line with
    | none => exact h
    | some t => simp [h]
  | conflicts =>
    simp only
    cases extractTwo line with
    | none => exact h
    | some t => exact h

theorem processLine_lengths (v v' : ParseVars) (raw : List Char)
    (h : processLine v raw = .ok v')
    (hlen : v.values.length = v.weights.length) :
    v'.values.length = v'.weights.length := by
  rcases processLine_ok_cases v v' raw h with
    rfl | ⟨n, rfl⟩ | ⟨c, rfl⟩ | rfl | rfl | rfl | rfl
  · exact hlen
  · exact dataLine_lengths _ _ hlen
  · exact dataLine_lengths _ _ hlen
  · exact hlen
  · exact hlen
  · exact hlen
  · exact dataLine_lengths _ _ hlen

theorem scanLines_lengths (lines : List (List Char)) (v v' : ParseVars)
    (h : scanLines v lines = .ok v')
    (hlen : v.values.length = v.weights.length) :
    v'.values.length = v'.weights.length := by
  induction lines generalizing v with
  | nil =>
    simp only [scanLines] at h
    cases h
    exact hlen
  | cons raw rest ih =>
    simp only [scanLines] at h
    cases hp : processLine v raw with
    | error e => rw [hp] at h; cases h
    | ok v1 =>
      rw [hp] at h
      exact ih v1 h (processLine_lengths v v1 raw hp hlen)

/-- On equally long inputs the function returns `nullopt` only for a solver
status other than OPTIMAL and FEASIBLE. -/
theorem solve_eq_none_iff (solve : CpModelBuilder → CpSolverResponse)
    (weights values : List Int) (capacity : Int) (conflicts : List (Int × Int))
    (hlen : values.length = weights.length) :
    SolveKnapsackWithConflicts solve weights values capacity conflicts = none ↔
      ((solve (buildModel weights values capacity conflicts)).status
          ≠ CpSolverStatus.OPTIMAL ∧
        (solve (buildModel weights values capacity conflicts)).status
          ≠ CpSolverStatus.FEASIBLE) := by
  unfold SolveKnapsackWithConflicts
  simp only [hlen, ne_eq, not_true_eq_false, if_false]
  split <;> simp_all

/-- C18: called with equally long `weights` and `values` (in particular with
the empty vectors `main` passes), `ParseKnapsackFile` returns them equally
long, so `SolveKnapsackWithConflicts` on the parsed instance never takes the
size-mismatch branch: it returns `nullopt` only for a solver status other than
OPTIMAL and FEASIBLE. -/
theorem C18_equal_lengths (fs : List Char → Option (List Char)) (filepath : List Char)
    (weights values : List Int) (capacity : Int) (conflicts : List (Int × Int))
    (r : ParseReturn)
    (hlen : values.length = weights.length)
    (hret : ParseKnapsackFile fs filepath weights values capacity conflicts = .ok r) :
    r.values.length = r.weights.length ∧
    ∀ solve : CpModelBuilder → CpSolverResponse,
      SolveKnapsackWithConflicts solve r.weights r.values r.capacity r.conflicts = none ↔
        ((solve (buildModel r.weights r.values r.capacity r.conflicts)).status
            ≠ CpSolverStatus.OPTIMAL ∧
          (solve (buildModel r.weights r.values r.capacity r.conflicts)).status
            ≠ CpSolverStatus.FEASIBLE) := by
  have hr : r.values.length = r.weights.length := by
    unfold ParseKnapsackFile at hret
    cases hf : fs filepath with
    | none =>
      rw [hf] at hret
      cases hret
      exact hlen
    | some text =>
      rw [hf] at hret
      simp only at hret
      cases hs : scanLines
          { weights := weights, values := values, capacity := capacity,
            conflicts := conflicts, state := Section.none, num_items := 0 }
          (getlines text) with
      | error e => rw [hs] at hret; cases hret
      | ok v =>
        rw [hs] at hret
        cases hret
        exact scanLines_lengths _ _ _ hs hlen
  exact ⟨hr, fun solve => solve_eq_none_iff solve _ _ _ _ hr⟩

/-- C18 at a file with two item lines, parsed into empty vectors. -/
theorem C18_equal_lengths_witness :
    (([] : List Int).length = ([] : List Int).length ∧
      ParseKnapsackFile (oneFile twoItemsText) "inst.txt".toList [] [] 0 []
        = .ok twoItemsReturn) ∧
    (twoItemsReturn.values.length = twoItemsReturn.weights.length ∧
      ∀ solve : CpModelBuilder → CpSolverResponse,
        SolveKnapsackWithConflicts solve twoItemsReturn.weights twoItemsReturn.values
            twoItemsReturn.capacity twoItemsReturn.conflicts = none ↔
          ((solve (buildModel twoItemsReturn.weights twoItemsReturn.values
              twoItemsReturn.capacity twoItemsReturn.conflicts)).status
              ≠ CpSolverStatus.OPTIMAL ∧
            (solve (buildModel twoItemsReturn.weights twoItemsReturn.values
              twoItemsReturn.capacity twoItemsReturn.conflicts)).status
              ≠ CpSolverStatus.FEASIBLE)) :=
  ⟨⟨rfl, rfl⟩,
    C18_equal_lengths (oneFile twoItemsText) "inst.txt".toList [] [] 0 [] twoItemsReturn
      rfl rfl⟩

/-! ## Control lines -/

theorem extractInt_p (rest : List Char) : extractInt ('p' :: rest) = none := rfl

theorem extractInt_s (rest : List Char) : extractInt ('s' :: rest) = none := rfl

theorem dataLine_p (v : ParseVars) (rest : List Char) : dataLine v ('p' :: rest) = v := by
  unfold dataLine
  cases v.state with
  | none => rfl
  | items => simp [extractThree, extractInt_p]
  | conflicts => simp [extractTwo, extractInt_p]

/-- A `param n :=` line with a parsable integer sets `num_items` and nothing
else, in every section. -/
theorem processLine_param_n (v : ParseVars) (raw : List Char) (n : Int)
    (hline : StartsWith (Trim raw) "param n :=".toList = true)
    (hn : stoi (paramArgument (Trim raw)) = .ok n) :
    processLine v raw = .ok { v with num_items := n } := by
  obtain ⟨t, ht⟩ := List.isPrefixOf_iff_prefix.1 hline
  have hl : Trim raw = 'p' :: 'a' :: 'r' :: 'a' :: 'm' :: ' ' :: 'n' :: ' ' :: ':' :: '=' :: t :=
    ht.symm
  have hskip : ((Trim raw).isEmpty || StartsWith (Trim raw) "#".toList) = false := by
    rw [hl]; rfl
  unfold processLine
  simp only [hskip, hline, hn, Bool.false_eq_true, if_false, if_true]
  rw [hl, dataLine_p]

/-- A `param c :=` line with a parsable integer sets `capacity` and nothing
else, in every section. -/
theorem processLine_param_c (v : ParseVars) (raw : List Char) (c : Int)
    (hline : StartsWith (Trim raw) "param c :=".toList = true)
    (hc : stoi (paramArgument (Trim raw)) = .ok c) :
    processLine v raw = .ok { v with capacity := c } := by
  obtain ⟨t, ht⟩ := List.isPrefixOf_iff_prefix.1 hline
  have hl : Trim raw = 'p' :: 'a' :: 'r' :: 'a' :: 'm' :: ' ' :: 'c' :: ' ' :: ':' :: '=' :: t :=
    ht.symm
  have hskip : ((Trim raw).isEmpty || StartsWith (Trim raw) "#".toList) = false := by
    rw [hl]; rfl
  have hnot : StartsWith (Trim raw) "param n :=".toList = false := by
    rw [hl]; rfl
  unfold processLine
  simp only [hskip, hnot, hline, hc, Bool.false_eq_true, if_false, if_true]
  rw [hl, dataLine_p]

/-- A `param : V : p w :=` line enters the items section and changes nothing
else. -/
theorem processLine_items_header (v : ParseVars) (raw : List Char)
    (hline : StartsWith (Trim raw) "param : V : p w :=".toList = true) :
    processLine v raw = .ok { v with state := Section.items } := by
  obtain ⟨t, ht⟩ := List.isPrefixOf_iff_prefix.1 hline
  have hl : Trim raw = 'p' :: 'a' :: 'r' :: 'a' :: 'm' :: ' ' :: ':' :: ' ' :: 'V' :: ' ' ::
      ':' :: ' ' :: 'p' :: ' ' :: 'w' :: ' ' :: ':' :: '=' :: t := ht.symm
  have hskip : ((Trim raw).isEmpty || StartsWith (Trim raw) "#".toList) = false := by
    rw [hl]; rfl
  have hnot1 : StartsWith (Trim raw) "param n :=".toList = false := by
    rw [hl]; rfl
  have hnot2 : StartsWith (Trim raw) "param c :=".toList = false := by
    rw [hl]; rfl
  unfold processLine
  simp only [hskip, hnot1, hnot2, hline, Bool.false_eq_true, if_false, if_true]

/-- A `set E :=` line enters the conflicts section and changes nothing else. -/
theorem processLine_conflicts_header (v : ParseVars) (raw : List Char)
    (hline : StartsWith (Trim raw) "set E :=".toList = true) :
    processLine v raw = .ok { v with state := Section.conflicts } := by
  obtain ⟨t, ht⟩ := List.isPrefixOf_iff_prefix.1 hline
  have hl : Trim raw = 's' :: 'e' :: 't' :: ' ' :: 'E' :: ' ' :: ':' :: '=' :: t := ht.symm
  have hskip : ((Trim raw).isEmpty || StartsWith (Trim raw) "#".toList) = false := by
    rw [hl]; rfl
  have hnot1 : StartsWith (Trim raw) "param n :=".toList = false := by
    rw [hl]; rfl
  have hnot2 : StartsWith (Trim raw) "param c :=".toList = false := by
    rw [hl]; rfl
  have hnot3 : StartsWith (Trim raw) "param : V : p w :=".toList = false := by
    rw [hl]; rfl
  unfold processLine
  simp only [hskip, hnot1, hnot2, hnot3, hline, Bool.false_eq_true, if_false, if_true]

/-- A line equal to `;` leaves the current section and changes nothing else. -/
theorem processLine_semicolon (v : ParseVars) (raw : List Char)
    (hline : Trim raw = ";".toList) :
    processLine v raw = .ok { v with state := Section.none } := by
  unfold processLine
  simp only [hline]
  rfl

theorem processLine_param_n_error (v : ParseVars) (raw : List Char) (e : StoiError)
    (hline : StartsWith (Trim raw) "param n :=".toList = true)
    (hn : stoi (paramArgument (Trim raw)) = .error e) :
    processLine v raw = .error e := by
  obtain ⟨t, ht⟩ := List.isPrefixOf_iff_prefix.1 hline
  have hl : Trim raw = 'p' :: 'a' :: 'r' :: 'a' :: 'm' :: ' ' :: 'n' :: ' ' :: ':' :: '=' :: t :=
    ht.symm
  have hskip : ((Trim raw).isEmpty || StartsWith (Trim raw) "#".toList) = false := by
    rw [hl]; rfl
  unfold processLine
  simp only [hskip, hline, hn, Bool.false_eq_true, if_false, if_true]

theorem processLine_param_c_error (v : ParseVars) (raw : List Char) (e : StoiError)
    (hline : StartsWith (Trim raw) "param c :=".toList = true)
    (hc : stoi (paramArgument (Trim raw)) = .error e) :
    processLine v raw = .error e := by
  obtain ⟨t, ht⟩ := List.isPrefixOf_iff_prefix.1 hline
  have hl : Trim raw = 'p' :: 'a' :: 'r' :: 'a' :: 'm' :: ' ' :: 'c' :: ' ' :: ':' :: '=' :: t :=
    ht.symm
  have hskip : ((Trim raw).isEmpty || StartsWith (Trim raw) "#".toList) = false := by
    rw [hl]; rfl
  have hnot : StartsWith (Trim raw) "param n :=".toList = false := by
    rw [hl]; rfl
  unfold processLine
  simp only [hskip, hnot, hline, hc, Bool.false_eq_true, if_false, if_true]

/-- C17: in every parser state, a `param n :=` or `param c :=` line with a
parsable integer sets only `num_items` or `capacity` (the section stays as it
is), a `param : V : p w :=` line, a `set E :=` line and a line equal to `;`
change only the section, and no control line that is processed appends an
item or a conflict pair. -/
theorem C17_control_lines (v : ParseVars) (raw : List Char) :
    (∀ n, StartsWith (Trim raw) "param n :=".toList = true →
      stoi (paramArgument (Trim raw)) = .ok n →
      processLine v raw = .ok { v with num_items := n }) ∧
    (∀ c, StartsWith (Trim raw) "param c :=".toList = true →
      stoi (paramArgument (Trim raw)) = .ok c →
      processLine v raw = .ok { v with capacity := c }) ∧
    (StartsWith (Trim raw) "param : V : p w :=".toList = true →
      processLine v raw = .ok { v with state := Section.items }) ∧
    (StartsWith (Trim raw) "set E :=".toList = true →
      processLine v raw = .ok { v with state := Section.conflicts }) ∧
    (Trim raw = ";".toList →
      processLine v raw = .ok { v with state := Section.none }) ∧
    (∀ v', isControlLine (Trim raw) = true → processLine v raw = .ok v' →
      v'.weights = v.weights ∧ v'.values = v.values ∧ v'.conflicts = v.conflicts) := by
  refine ⟨fun n h1 h2 => processLine_param_n v raw n h1 h2,
    fun c h1 h2 => processLine_param_c v raw c h1 h2,
    processLine_items_header v raw, processLine_conflicts_header v raw,
    processLine_semicolon v raw, ?_⟩
  intro v' hctl hok
  simp only [isControlLine, Bool.or_eq_true, decide_eq_true_eq] at hctl
  rcases hctl with (((hn | hc) | hv) | he) | hsemi
  · cases hs : stoi (paramArgument (Trim raw)) with
    | error e => rw [processLine_param_n_error v raw e hn hs] at hok; cases hok
    | ok n =>
      rw [processLine_param_n v raw n hn hs] at hok
      cases hok
      exact ⟨rfl, rfl, rfl⟩
  · cases hs : stoi (paramArgument (Trim raw)) with
    | error e => rw [processLine_param_c_error v raw e hc hs] at hok; cases hok
    | ok c =>
      rw [processLine_param_c v raw c hc hs] at hok
      cases hok
      exact ⟨rfl, rfl, rfl⟩
  · rw [processLine_items_header v raw hv] at hok
    cases hok
    exact ⟨rfl, rfl, rfl⟩
  · rw [processLine_conflicts_header v raw he] at hok
    cases hok
    exact ⟨rfl, rfl, rfl⟩
  · rw [processLine_semicolon v raw hsemi] at hok
    cases hok
    exact ⟨rfl, rfl, rfl⟩

/-- C17 at the five control lines met inside an items section. -/
theorem C17_control_lines_witness :
    processLine itemsVars "param n := 3;".toList = .ok { itemsVars with num_items := 3 } ∧
    processLine itemsVars " param c := 50 ;".toList = .ok { itemsVars with capacity := 50 } ∧
    processLine itemsVars "param : V : p w := 1 2 3".toList
      = .ok { itemsVars with state := Section.items } ∧
    processLine itemsVars "set E := 4 5".toList
      = .ok { itemsVars with state := Section.conflicts } ∧
    processLine itemsVars " ;\r".toList = .ok { itemsVars with state := Section.none } :=
  ⟨(C17_control_lines itemsVars "param n := 3;".toList).1 3 rfl rfl,
    (C17_control_lines itemsVars " param c := 50 ;".toList).2.1 50 rfl rfl,
    (C17_control_lines itemsVars "param : V : p w := 1 2 3".toList).2.2.1 rfl,
    (C17_control_lines itemsVars "set E := 4 5".toList).2.2.2.1 rfl,
    (C17_control_lines itemsVars " ;\r".toList).2.2.2.2.1 rfl⟩

/-! ## `Trim` as stripping of leading and trailing whitespace -/

theorem findIdx?_eq_takeWhile (p : Char → Bool) (s : List Char) :
    s.findIdx? p =
      if s.dropWhile (fun c => !p c) = [] then none
      else some (s.takeWhile (fun c => !p c)).length := by
  induction s with
  | nil => simp
  | cons x xs ih =>
    by_cases hx : p x = true
    · simp [List.findIdx?_cons, List.dropWhile_cons, List.takeWhile_cons, hx]
    · have hx' : p x = false := by simpa using hx
      rw [List.findIdx?_cons, if_neg hx, List.findIdx?_succ, ih]
      simp only [List.dropWhile_cons, List.takeWhile_cons, hx', Bool.not_false, if_true]
      split <;> simp

theorem drop_length_takeWhile (p : Char → Bool) (s : List Char) :
    s.drop (s.takeWhile p).length = s.dropWhile p := by
  have h := List.drop_left (s.takeWhile p) (s.dropWhile p)
  rwa [List.takeWhile_append_dropWhile] at h

theorem not_not_fun (p : Char → Bool) : (fun c => !(!p c)) = p := by
  funext c; simp

/-- The function `Trim` removes the leading and the trailing characters of the
set `" \t\r\n"` and nothing else. -/
theorem Trim_eq (s : List Char) :
    Trim s = (s.dropWhile isTrimSpace).rdropWhile isTrimSpace := by
  have hff : find_first_not_of s whitespace =
      if s.dropWhile isTrimSpace = [] then none
      else some (s.takeWhile isTrimSpace).length := by
    unfold find_first_not_of
    rw [findIdx?_eq_takeWhile]
    simp only [Bool.not_not]
    rfl
  have hfl : find_last_not_of s whitespace =
      if s.reverse.dropWhile isTrimSpace = [] then none
      else some (s.length - 1 - (s.reverse.takeWhile isTrimSpace).length) := by
    unfold find_last_not_of
    rw [findIdx?_eq_takeWhile]
    simp only [Bool.not_not]
    change (match (if s.reverse.dropWhile isTrimSpace = [] then none
        else some (s.reverse.takeWhile isTrimSpace).length) with
      | none => none
      | some k => some (s.length - 1 - k)) = _
    by_cases h : s.reverse.dropWhile isTrimSpace = []
    · rw [if_pos h, if_pos h]
    · rw [if_neg h, if_neg h]
  unfold Trim
  rw [hff]
  by_cases hd : s.dropWhile isTrimSpace = []
  · simp [hd, List.rdropWhile]
  · rw [if_neg hd]
    simp only
    -- the middle part `m` starts with a character that is kept
    have hsplit := List.takeWhile_append_dropWhile isTrimSpace s
    obtain ⟨x, m', hm⟩ := List.exists_cons_of_ne_nil hd
    have hx : isTrimSpace x = false := by
      have := List.head_dropWhile_not isTrimSpace s hd
      simpa [hm] using this
    -- the reversed string: trailing whitespace first
    have hrev : s.reverse.dropWhile isTrimSpace ≠ [] := by
      intro hnil
      have hall : ∀ c ∈ s.reverse, isTrimSpace c = true := by
        simpa [List.dropWhile_eq_nil_iff] using hnil
      have hxs : x ∈ s := by
        rw [← hsplit, hm]; simp
      have := hall x (List.mem_reverse.2 hxs)
      rw [hx] at this
      cases this
    rw [hfl, if_neg hrev]
    simp only
    -- trailing whitespace of `s` is trailing whitespace of the middle part
    have hsm : s.reverse.takeWhile isTrimSpace
        = (s.dropWhile isTrimSpace).reverse.takeWhile isTrimSpace := by
      conv_lhs => rw [← hsplit, List.reverse_append]
      rw [List.takeWhile_append]
      split
      · rename_i hlen
        exfalso
        have hall : ∀ c ∈ (s.dropWhile isTrimSpace).reverse, isTrimSpace c = true := by
          intro c hc
          have heq : (s.dropWhile isTrimSpace).reverse.takeWhile isTrimSpace
              = (s.dropWhile isTrimSpace).reverse := by
            have hpre := List.takeWhile_prefix (p := isTrimSpace)
              (l := (s.dropWhile isTrimSpace).reverse)
            exact hpre.eq_of_length hlen
          rw [← heq] at hc
          exact List.mem_takeWhile_imp hc
        have := hall x (by rw [hm]; simp)
        rw [hx] at this
        cases this
      · rfl
    rw [hsm]
    unfold substr
    rw [drop_length_takeWhile]
    -- the middle part splits into what is kept and the trailing whitespace
    have hmid := List.takeWhile_append_dropWhile isTrimSpace (s.dropWhile isTrimSpace).reverse
    have hkeep : (s.dropWhile isTrimSpace).rdropWhile isTrimSpace
        = ((s.dropWhile isTrimSpace).reverse.dropWhile isTrimSpace).reverse := rfl
    have hm2 : s.dropWhile isTrimSpace
        = ((s.dropWhile isTrimSpace).reverse.dropWhile isTrimSpace).reverse ++
          ((s.dropWhile isTrimSpace).reverse.takeWhile isTrimSpace).reverse := by
      have := congrArg List.reverse hmid
      rw [List.reverse_append, List.reverse_reverse] at this
      exact this.symm
    have hlen_s : s.length = (s.takeWhile isTrimSpace).length
        + (s.dropWhile isTrimSpace).length := by
      conv_lhs => rw [← hsplit]
      exact List.length_append _ _
    have hlen_m : (s.dropWhile isTrimSpace).length
        = ((s.dropWhile isTrimSpace).reverse.dropWhile isTrimSpace).length
          + ((s.dropWhile isTrimSpace).reverse.takeWhile isTrimSpace).length := by
      conv_lhs => rw [hm2]
      simp
    have hpos : 0 < ((s.dropWhile isTrimSpace).reverse.dropWhile isTrimSpace).length := by
      apply List.length_pos.2
      intro hnil
      have hall : ∀ c ∈ (s.dropWhile isTrimSpace).reverse, isTrimSpace c = true := by
        simpa [List.dropWhile_eq_nil_iff] using hnil
      have := hall x (by rw [hm]; simp)
      rw [hx] at this
      cases this
    have hcount : s.length - 1
          - ((s.dropWhile isTrimSpace).reverse.takeWhile isTrimSpace).length
          - (s.takeWhile isTrimSpace).length + 1
        = (((s.dropWhile isTrimSpace).reverse.dropWhile isTrimSpace).reverse).length := by
      rw [List.length_reverse]
      omega
    rw [hcount, hkeep]
    have htake := List.take_left
      ((s.dropWhile isTrimSpace).reverse.dropWhile isTrimSpace).reverse
      ((s.dropWhile isTrimSpace).reverse.takeWhile isTrimSpace).reverse
    rw [← hm2] at htake
    exact htake

/-! ## Skipped lines -/

/-- A blank line, or one whose first character outside the whitespace set is
`#`, is trimmed to the empty string or to a string starting with `#`. -/
theorem skip_of_isSkippable (raw : List Char) (h : isSkippable raw = true) :
    ((Trim raw).isEmpty || StartsWith (Trim raw) "#".toList) = true := by
  rw [Trim_eq]
  unfold isSkippable at h
  cases hd : raw.dropWhile isTrimSpace with
  | nil => simp [List.rdropWhile]
  | cons c rest =>
    rw [hd] at h
    have hc : c = '#' := by simpa using h
    subst hc
    obtain ⟨t, ht⟩ := List.rdropWhile_prefix isTrimSpace ('#' :: rest)
    have hne : ('#' :: rest).rdropWhile isTrimSpace ≠ [] := by
      intro hnil
      have := (List.rdropWhile_eq_nil_iff).1 hnil '#' (List.mem_cons_self _ _)
      cases this
    obtain ⟨y, ys, hy⟩ := List.exists_cons_of_ne_nil hne
    rw [hy] at ht ⊢
    have hy' : y = '#' := by
      simp only [List.cons_append] at ht
      exact (List.cons.inj ht).1
    subst hy'
    show (('#' :: ys).isEmpty || StartsWith ('#' :: ys) ['#']) = true
    simp [StartsWith, List.isPrefixOf]

theorem processLine_skip (v : ParseVars) (raw : List Char) (h : isSkippable raw = true) :
    processLine v raw = .ok v := by
  unfold processLine
  simp only [skip_of_isSkippable raw h, if_true]

theorem scanLines_append (v : ParseVars) (l₁ l₂ : List (List Char)) :
    scanLines v (l₁ ++ l₂) =
      match scanLines v l₁ with
      | .error e => .error e
      | .ok v' => scanLines v' l₂ := by
  induction l₁ generalizing v with
  | nil => rfl
  | cons raw rest ih =>
    simp only [List.cons_append, scanLines]
    cases processLine v raw with
    | error e => rfl
    | ok v1 => exact ih v1

theorem scanLines_skip (v : ParseVars) (before after : List (List Char)) (raw : List Char)
    (h : isSkippable raw = true) :
    scanLines v (before ++ raw :: after) = scanLines v (before ++ after) := by
  rw [scanLines_append, scanLines_append]
  cases scanLines v before with
  | error e => rfl
  | ok v' => simp only [scanLines, processLine_skip v' raw h]

theorem getlinesAux_line (raw cur : List Char) (rest : List Char)
    (h : '\n' ∉ raw) :
    getlinesAux (raw ++ '\n' :: rest) cur = (cur.reverse ++ raw) :: getlinesAux rest [] := by
  induction raw generalizing cur with
  | nil => simp [getlinesAux]
  | cons c raw ih =>
    have hc : c ≠ '\n' := fun hc => h (by simp [hc])
    have hraw : '\n' ∉ raw := fun hr => h (List.mem_cons_of_mem _ hr)
    simp only [List.cons_append, getlinesAux, if_neg hc, List.append_eq]
    rw [ih (c :: cur) hraw]
    simp

theorem getlinesAux_split (pre post cur : List Char) :
    getlinesAux (pre ++ '\n' :: post) cur
      = getlinesAux (pre ++ ['\n']) cur ++ getlinesAux post [] := by
  induction pre generalizing cur with
  | nil => simp [getlinesAux]
  | cons c pre ih =>
    by_cases hc : c = '\n'
    · simp only [List.cons_append, getlinesAux, if_pos hc, List.append_eq]
      rw [ih []]
    · simp only [List.cons_append, getlinesAux, if_neg hc, List.append_eq]
      exact ih (c :: cur)

/-- Reading lines after a complete line boundary starts afresh. -/
theorem getlines_append (pre post : List Char)
    (h : pre = [] ∨ ∃ pre', pre = pre' ++ ['\n']) :
    getlines (pre ++ post) = getlines pre ++ getlines post := by
  rcases h with rfl | ⟨pre', rfl⟩
  · rfl
  · unfold getlines
    rw [List.append_assoc, List.singleton_append, getlinesAux_split]

theorem getlines_line (raw rest : List Char) (h : '\n' ∉ raw) :
    getlines (raw ++ '\n' :: rest) = raw :: getlines rest := by
  unfold getlines
  rw [getlinesAux_line raw [] rest h]
  rfl

/-- C16: a blank line or a line whose first character outside the whitespace
set is `#` leaves every loop variable unchanged in every parser state, so
inserting or deleting such a line anywhere among the lines, or as a full line
anywhere in the file text, does not change what `ParseKnapsackFile` does. -/
theorem C16_skipped_lines (raw : List Char) (hskip : isSkippable raw = true) :
    (∀ v : ParseVars, processLine v raw = .ok v) ∧
    (∀ (v : ParseVars) (before after : List (List Char)),
      scanLines v (before ++ raw :: after) = scanLines v (before ++ after)) ∧
    (∀ (fs fs' : List Char → Option (List Char)) (filepath pre post : List Char)
      (weights values : List Int) (capacity : Int) (conflicts : List (Int × Int)),
      (pre = [] ∨ ∃ pre', pre = pre' ++ ['\n']) →
      '\n' ∉ raw →
      fs filepath = some (pre ++ (raw ++ '\n' :: post)) →
      fs' filepath = some (pre ++ post) →
      ParseKnapsackFile fs filepath weights values capacity conflicts
        = ParseKnapsackFile fs' filepath weights values capacity conflicts) := by
  refine ⟨fun v => processLine_skip v raw hskip,
    fun v before after => scanLines_skip v before after raw hskip, ?_⟩
  intro fs fs' filepath pre post weights values capacity conflicts hpre hnl hfs hfs'
  unfold ParseKnapsackFile
  rw [hfs, hfs']
  simp only
  rw [getlines_append pre _ hpre, getlines_line raw post hnl, getlines_append pre post hpre,
    scanLines_skip _ _ _ raw hskip]

/-- C16 at a comment line with leading blanks, met inside an items section and
inserted into a file before the section end. -/
theorem C16_skipped_lines_witness :
    isSkippable " \t# 1 2 3".toList = true ∧
    processLine itemsVars " \t# 1 2 3".toList = .ok itemsVars ∧
    ParseKnapsackFile
        (oneFile ("param : V : p w :=\n1 2 3\n".toList ++ (" \t# 1 2 3".toList ++ '\n' :: ";\n".toList)))
        "inst.txt".toList [] [] 0 []
      = ParseKnapsackFile (oneFile ("param : V : p w :=\n1 2 3\n".toList ++ ";\n".toList))
        "inst.txt".toList [] [] 0 [] :=
  ⟨rfl, (C16_skipped_lines " \t# 1 2 3".toList rfl).1 itemsVars,
    (C16_skipped_lines " \t# 1 2 3".toList rfl).2.2 _ _ "inst.txt".toList
      "param : V : p w :=\n1 2 3\n".toList ";\n".toList [] [] 0 []
      (Or.inr ⟨"param : V : p w :=\n1 2 3".toList, rfl⟩) (by decide) rfl rfl⟩

/-! ## The index token of an item line -/

theorem dataLine_state (v : ParseVars) (line : List Char) :
    (dataLine v line).state = v.state := by
  unfold dataLine
  cases hs : v.state with
  | none => simp [hs]
  | items =>
    simp only
    cases extractThree line with
    | none => simp [hs]
    | some t => simp [hs]
  | conflicts =>
    simp only
    cases extractTwo line with
    | none => simp [hs]
    | some t => simp [hs]

/-- The loop body moves between sections as the transition table says. -/
theorem processLine_state (v v' : ParseVars) (raw : List Char)
    (h : processLine v raw = .ok v') :
    v'.state = sectionAfter v.state raw := by
  unfold processLine at h
  unfold sectionAfter
  simp only at h ⊢
  split_ifs at h ⊢
  · cases h; rfl
  · cases hs : stoi (paramArgument (Trim raw)) with
    | error e => rw [hs] at h; cases h
    | ok n => rw [hs] at h; cases h; exact dataLine_state _ _
  · cases hs : stoi (paramArgument (Trim raw)) with
    | error e => rw [hs] at h; cases h
    | ok n => rw [hs] at h; cases h; exact dataLine_state _ _
  · cases h; rfl
  · cases h; rfl
  · cases h; rfl
  · cases h; exact dataLine_state _ _

/-- The characters of an integer token are signs and digits. -/
theorem intToken_chars (t : List Char) (h : (intTokenValue t).isSome = true) :
    t ≠ [] ∧ ∀ c ∈ t, c = '-' ∨ c = '+' ∨ c.isDigit = true := by
  cases t with
  | nil => simp [intTokenValue] at h
  | cons c t' =>
    refine ⟨by simp, ?_⟩
    by_cases hsign : c = '-' ∨ c = '+'
    · have hsign' : ((c :: t').head? = some '-' ∨ (c :: t').head? = some '+') := by
        simpa using hsign
      simp only [intTokenValue, if_pos hsign', List.tail_cons] at h
      split at h
      · rename_i hcond
        obtain ⟨_, hdig, _⟩ := hcond
        intro x hx
        rcases List.mem_cons.1 hx with rfl | hx
        · rcases hsign with h1 | h1
          · exact Or.inl h1
          · exact Or.inr (Or.inl h1)
        · exact Or.inr (Or.inr (hdig x hx))
      · cases h
    · have hsign' : ¬ ((c :: t').head? = some '-' ∨ (c :: t').head? = some '+') := by
        simpa using hsign
      simp only [intTokenValue, if_neg hsign'] at h
      split at h
      · rename_i hcond
        obtain ⟨_, hdig, _⟩ := hcond
        intro x hx
        exact Or.inr (Or.inr (hdig x hx))
      · cases h

theorem tokenChar_not_trimSpace (c : Char) (h : c = '-' ∨ c = '+' ∨ c.isDigit = true) :
    isTrimSpace c = false := by
  cases hs : isTrimSpace c with
  | false => rfl
  | true =>
    exfalso
    have hmem : c = ' ' ∨ c = '\t' ∨ c = '\r' ∨ c = '\n' := by
      simpa [isTrimSpace, whitespace] using hs
    rcases hmem with rfl | rfl | rfl | rfl <;>
      rcases h with h | h | h <;> revert h <;> decide

theorem tokenChar_not_control (c : Char) (h : c = '-' ∨ c = '+' ∨ c.isDigit = true) :
    c ≠ '#' ∧ c ≠ 'p' ∧ c ≠ 's' ∧ c ≠ ';' := by
  refine ⟨?_, ?_, ?_, ?_⟩ <;> (rintro rfl; rcases h with h | h | h <;> revert h <;> decide)

theorem startsWith_cons_ne (c d : Char) (rest pre : List Char) (h : d ≠ c) :
    StartsWith (c :: rest) (d :: pre) = false := by
  simp [StartsWith, List.isPrefixOf, h]

/-- A line whose first character is a sign or a digit is neither skipped nor a
control line. -/
theorem tokenLine_plain (c : Char) (rest : List Char)
    (h : c = '-' ∨ c = '+' ∨ c.isDigit = true) :
    (c :: rest).isEmpty = false ∧ StartsWith (c :: rest) "#".toList = false ∧
      isControlLine (c :: rest) = false := by
  obtain ⟨h1, h2, h3, h4⟩ := tokenChar_not_control c h
  refine ⟨rfl, startsWith_cons_ne c '#' rest [] (Ne.symm h1), ?_⟩
  have e1 : StartsWith (c :: rest) "param n :=".toList = false :=
    startsWith_cons_ne c 'p' rest _ (Ne.symm h2)
  have e2 : StartsWith (c :: rest) "param c :=".toList = false :=
    startsWith_cons_ne c 'p' rest _ (Ne.symm h2)
  have e3 : StartsWith (c :: rest) "param : V : p w :=".toList = false :=
    startsWith_cons_ne c 'p' rest _ (Ne.symm h2)
  have e4 : StartsWith (c :: rest) "set E :=".toList = false :=
    startsWith_cons_ne c 's' rest _ (Ne.symm h3)
  have e5 : ¬ (c :: rest = ";".toList) := by
    intro he
    exact h4 (List.cons.inj he).1
  simp only [isControlLine, e1, e2, e3, e4, Bool.or_self, Bool.false_or]
  exact decide_eq_false e5

theorem rdropWhile_append_kept (p : Char → Bool) (t r : List Char) (hne : t ≠ [])
    (ht : ∀ c ∈ t, p c = false) :
    (t ++ r).rdropWhile p = t ++ r.rdropWhile p := by
  have hrev : t.reverse.dropWhile p = t.reverse := by
    obtain ⟨x, xs, hx⟩ := List.exists_cons_of_ne_nil
      (show t.reverse ≠ [] by simpa using hne)
    rw [hx]
    have hpx : p x = false := ht x (by
      have : x ∈ t.reverse := by rw [hx]; exact List.mem_cons_self _ _
      exact List.mem_reverse.1 this)
    simp [List.dropWhile_cons, hpx]
  unfold List.rdropWhile
  rw [List.reverse_append, List.dropWhile_append]
  split
  · rename_i hemp
    have hnil : r.reverse.dropWhile p = [] := by simpa using hemp
    rw [hrev, hnil]
    simp
  · simp

/-- The trimmed form of a line that starts, after whitespace, with a token of
signs and digits. -/
theorem Trim_token_line (ws t r : List Char)
    (hws : ∀ c ∈ ws, isTrimSpace c = true) (hne : t ≠ [])
    (ht : ∀ c ∈ t, isTrimSpace c = false) :
    Trim (ws ++ t ++ r) = t ++ r.rdropWhile isTrimSpace := by
  rw [Trim_eq, List.append_assoc, List.dropWhile_append_of_pos hws]
  obtain ⟨x, xs, hx⟩ := List.exists_cons_of_ne_nil hne
  have hpx : isTrimSpace x = false := ht x (by rw [hx]; exact List.mem_cons_self _ _)
  have hd : (t ++ r).dropWhile isTrimSpace = t ++ r := by
    rw [hx]
    simp [List.dropWhile_cons, hpx]
  rw [hd]
  exact rdropWhile_append_kept isTrimSpace t r hne ht

theorem head_rdropWhile (p : Char → Bool) (r : List Char) (c : Char)
    (h : (r.rdropWhile p).head? = some c) : r.head? = some c := by
  obtain ⟨t, ht⟩ := List.rdropWhile_prefix p r
  cases hR : r.rdropWhile p with
  | nil => rw [hR] at h; cases h
  | cons x xs =>
    rw [hR] at h ht
    rw [← ht]
    simpa using h

/-- In the items section the data part reads the index token and then depends
on the rest of the line only. -/
theorem dataLine_index (v : ParseVars) (t rest : List Char)
    (hstate : v.state = Section.items)
    (ht : (intTokenValue t).isSome = true)
    (hrest : ∀ c, rest.head? = some c → c.isDigit = false) :
    dataLine v (t ++ rest) = itemAfterIndex v rest := by
  obtain ⟨z, hz⟩ := Option.isSome_iff_exists.1 ht
  have he := extractInt_token [] t rest z (by simp) hz hrest
  simp only [List.nil_append] at he
  simp only [dataLine, hstate, extractThree, he, itemAfterIndex]
  cases extractInt rest with
  | none => rfl
  | some p =>
    obtain ⟨value, r2⟩ := p
    simp only
    cases extractInt r2 with
    | none => rfl
    | some q => rfl

/-- In the items section a line that starts with an integer token is handled
without regard to that token. -/
theorem processLine_index (v : ParseVars) (ws t r : List Char)
    (hstate : v.state = Section.items)
    (hws : ∀ c ∈ ws, isTrimSpace c = true)
    (ht : (intTokenValue t).isSome = true)
    (hr : ∀ c, r.head? = some c → isSpace c = true) :
    processLine v (ws ++ t ++ r) = .ok (itemAfterIndex v (r.rdropWhile isTrimSpace)) := by
  obtain ⟨hne, hchars⟩ := intToken_chars t ht
  have htrim := Trim_token_line ws t r hws hne
    (fun c hc => tokenChar_not_trimSpace c (hchars c hc))
  obtain ⟨x, xs, hx⟩ := List.exists_cons_of_ne_nil hne
  have hxc := hchars x (by rw [hx]; exact List.mem_cons_self _ _)
  obtain ⟨p1, p2, p3⟩ := tokenLine_plain x (xs ++ r.rdropWhile isTrimSpace) hxc
  have hline : Trim (ws ++ t ++ r) = x :: (xs ++ r.rdropWhile isTrimSpace) := by
    rw [htrim, hx]; rfl
  rw [processLine_data v _ (by rw [hline]; exact p1) (by rw [hline]; exact p2)
    (by rw [hline]; exact p3), htrim]
  rw [dataLine_index v t _ hstate ht]
  intro c hc
  exact isDigit_of_isSpace c (hr c (head_rdropWhile _ _ _ hc))

theorem processLine_idxVariant (v : ParseVars) (raw raw' : List Char)
    (hstate : v.state = Section.items) (h : IdxVariant raw raw') :
    processLine v raw = processLine v raw' ∧
      ∃ v', processLine v raw = .ok v' ∧ v'.state = Section.items := by
  obtain ⟨ws, t, t', r, rfl, rfl, hws, ht, ht', hr⟩ := h
  rw [processLine_index v ws t r hstate hws ht hr,
    processLine_index v ws t' r hstate hws ht' hr]
  refine ⟨rfl, _, rfl, ?_⟩
  unfold itemAfterIndex
  cases extractInt (r.rdropWhile isTrimSpace) with
  | none => exact hstate
  | some p =>
    obtain ⟨value, r2⟩ := p
    simp only
    cases extractInt r2 with
    | none => exact hstate
    | some q => exact hstate

theorem scanLines_idxVariant (ls ls' : List (List Char)) (st : Section)
    (h : IdxVariantLines st ls ls') :
    ∀ v : ParseVars, v.state = st → scanLines v ls = scanLines v ls' := by
  induction h with
  | nil st => intro v _; rfl
  | same st raw ls ls' _ ih =>
    intro v hv
    simp only [scanLines]
    cases hp : processLine v raw with
    | error e => rfl
    | ok v1 =>
      simp only
      apply ih v1
      rw [processLine_state v v1 raw hp, hv]
  | idx raw raw' ls ls' hvar _ ih =>
    intro v hv
    obtain ⟨heq, v1, hv1, hst⟩ := processLine_idxVariant v raw raw' hv hvar
    simp only [scanLines]
    rw [← heq, hv1]
    exact ih v1 hst

theorem dataLine_appends (v : ParseVars) (line : List Char) :
    ((dataLine v line).values = v.values ∧ (dataLine v line).weights = v.weights) ∨
    ∃ value weight, (dataLine v line).values = v.values ++ [value] ∧
      (dataLine v line).weights = v.weights ++ [weight] := by
  unfold dataLine
  cases v.state with
  | none => exact Or.inl ⟨rfl, rfl⟩
  | items =>
    simp only
    cases extractThree line with
    | none => exact Or.inl ⟨rfl, rfl⟩
    | some t => exact Or.inr ⟨t.2.1, t.2.2, rfl, rfl⟩
  | conflicts =>
    simp only
    cases extractTwo line with
    | none => exact Or.inl ⟨rfl, rfl⟩
    | some t => exact Or.inl ⟨rfl, rfl⟩

/-- C15: the index token of an item line does not influence the parse. In the
items section two lines that differ only in their first token, an integer
token in both, are handled alike; two files whose lines differ only in this
way give the same result of `ParseKnapsackFile`; and every loop iteration
either leaves `values` and `weights` as they are or appends one entry at the
end of each, so the k-th accepted item line is stored at position k. -/
theorem C15_index_token_unused :
    (∀ (v : ParseVars) (raw raw' : List Char), v.state = Section.items →
      IdxVariant raw raw' → processLine v raw = processLine v raw') ∧
    (∀ (v : ParseVars) (ls ls' : List (List Char)),
      IdxVariantLines v.state ls ls' → scanLines v ls = scanLines v ls') ∧
    (∀ (fs fs' : List Char → Option (List Char)) (filepath text text' : List Char)
      (weights values : List Int) (capacity : Int) (conflicts : List (Int × Int)),
      fs filepath = some text → fs' filepath = some text' →
      IdxVariantLines Section.none (getlines text) (getlines text') →
      ParseKnapsackFile fs filepath weights values capacity conflicts
        = ParseKnapsackFile fs' filepath weights values capacity conflicts) ∧
    (∀ (v v' : ParseVars) (raw : List Char), processLine v raw = .ok v' →
      (v'.values = v.values ∧ v'.weights = v.weights) ∨
      ∃ value weight, v'.values = v.values ++ [value] ∧
        v'.weights = v.weights ++ [weight]) := by
  refine ⟨fun v raw raw' hs hv => (processLine_idxVariant v raw raw' hs hv).1,
    fun v ls ls' h => scanLines_idxVariant ls ls' v.state h v rfl, ?_, ?_⟩
  · intro fs fs' filepath text text' weights values capacity conflicts hfs hfs' hvar
    unfold ParseKnapsackFile
    rw [hfs, hfs']
    simp only
    rw [scanLines_idxVariant _ _ Section.none hvar _ rfl]
  · intro v v' raw h
    rcases processLine_ok_cases v v' raw h with
      rfl | ⟨n, rfl⟩ | ⟨c, rfl⟩ | rfl | rfl | rfl | rfl
    · exact Or.inl ⟨rfl, rfl⟩
    · exact dataLine_appends _ _
    · exact dataLine_appends _ _
    · exact Or.inl ⟨rfl, rfl⟩
    · exact Or.inl ⟨rfl, rfl⟩
    · exact Or.inl ⟨rfl, rfl⟩
    · exact dataLine_appends _ _

/-- The two sample files differ only in the index tokens of their item lines. -/
theorem indexText_variant :
    IdxVariantLines Section.none (getlines indexText) (getlines indexVariantText) := by
  show IdxVariantLines Section.none
    ["param : V : p w :=".toList, [] ++ "1".toList ++ " 2 3".toList,
      " ".toList ++ "2".toList ++ " 5 6".toList, ";".toList]
    ["param : V : p w :=".toList, [] ++ "-7".toList ++ " 2 3".toList,
      " ".toList ++ "+40".toList ++ " 5 6".toList, ";".toList]
  refine IdxVariantLines.same _ _ _ _ ?_
  show IdxVariantLines Section.items _ _
  refine IdxVariantLines.idx _ _ _ _
    ⟨[], "1".toList, "-7".toList, " 2 3".toList, rfl, rfl, by decide, by decide, by decide,
      by decide⟩ ?_
  refine IdxVariantLines.idx _ _ _ _
    ⟨" ".toList, "2".toList, "+40".toList, " 5 6".toList, rfl, rfl, by decide, by decide,
      by decide, by decide⟩ ?_
  exact IdxVariantLines.same _ _ _ _ (IdxVariantLines.nil _)

/-- C15 at the two sample files: both parse to the values 2, 5 and the weights
3, 6. -/
theorem C15_index_token_unused_witness :
    IdxVariantLines Section.none (getlines indexText) (getlines indexVariantText) ∧
    ParseKnapsackFile (oneFile indexText) "inst.txt".toList [] [] 0 []
      = ParseKnapsackFile (oneFile indexVariantText) "inst.txt".toList [] [] 0 [] ∧
    ParseKnapsackFile (oneFile indexVariantText) "inst.txt".toList [] [] 0 []
      = .ok { ok := true, weights := [3, 6], values := [2, 5], capacity := 0,
              conflicts := [], warned := false } :=
  ⟨indexText_variant,
    C15_index_token_unused.2.2.1 (oneFile indexText) (oneFile indexVariantText)
      "inst.txt".toList indexText indexVariantText [] [] 0 [] rfl rfl indexText_variant,
    rfl⟩

/-! ## Lemmas on the string searches -/

/-- A found pattern splits the string at the returned index. -/
theorem find_split (s pat : List Char) (p : Nat) (h : find s pat = some p) :
    ∃ A B, s = A ++ pat ++ B ∧ A.length = p := by
  induction s generalizing p with
  | nil =>
    simp only [find] at h
    split at h
    · rename_i hpat
      cases h
      have : pat = [] := by simpa using hpat
      exact ⟨[], [], by simp [this], rfl⟩
    · cases h
  | cons c s ih =>
    simp only [find] at h
    split at h
    · rename_i hpre
      cases h
      obtain ⟨B, hB⟩ := List.isPrefixOf_iff_prefix.1 hpre
      exact ⟨[], B, by simp [hB], rfl⟩
    · cases hf : find s pat with
      | none => rw [hf] at h; cases h
      | some k =>
        rw [hf] at h
        simp only [Option.map_some', Option.some.injEq] at h
        obtain ⟨A, B, hs, hA⟩ := ih k hf
        exact ⟨c :: A, B, by simp [hs], by simp [hA, h]⟩

theorem find_last_of_eq_none (l : List Char) (c : Char) :
    find_last_of l c = none ↔ c ∉ l := by
  induction l with
  | nil => simp [find_last_of]
  | cons x xs ih =>
    simp only [find_last_of]
    cases hf : find_last_of xs c with
    | some k =>
      have hmem : c ∈ xs := by
        by_contra hc
        rw [ih.2 hc] at hf
        cases hf
      simp [hmem]
    | none =>
      have hnot : c ∉ xs := ih.1 hf
      by_cases hx : x = c
      · simp [hx]
      · simp [hx, hnot, Ne.symm hx]

/-- Characters appended after the prefix `A` do not move the last occurrence
when they hold no occurrence. -/
theorem find_last_of_append (A X : List Char) (c : Char) (h : c ∉ X) :
    find_last_of (A ++ X) c = find_last_of A c := by
  induction A with
  | nil =>
    simp only [List.nil_append, find_last_of]
    exact (find_last_of_eq_none X c).2 h
  | cons x A ih =>
    simp only [List.cons_append, find_last_of, List.append_eq, ih]

/-- A last occurrence inside the prefix `A` means no occurrence after `A`. -/
theorem find_last_of_inside (A X : List Char) (c : Char) (s : Nat)
    (h : find_last_of (A ++ X) c = some s) (hs : s < A.length) : c ∉ X := by
  induction A generalizing s with
  | nil => simp at hs
  | cons x A ih =>
    simp only [List.cons_append, find_last_of, List.append_eq] at h
    cases hf : find_last_of (A ++ X) c with
    | some k =>
      rw [hf] at h
      simp only [Option.some.injEq] at h
      exact ih k hf (by simp only [List.length_cons] at hs; omega)
    | none =>
      have := (find_last_of_eq_none (A ++ X) c).1 hf
      intro hc
      exact this (List.mem_append_right _ hc)

theorem find_last_of_get (l : List Char) (c : Char) (s : Nat)
    (h : find_last_of l c = some s) : l[s]? = some c := by
  induction l generalizing s with
  | nil => simp [find_last_of] at h
  | cons x xs ih =>
    simp only [find_last_of] at h
    cases hf : find_last_of xs c with
    | some k =>
      rw [hf] at h
      simp only [Option.some.injEq] at h
      subst h
      simpa using ih k hf
    | none =>
      rw [hf] at h
      simp only at h
      split at h
      · rename_i hx
        cases h
        simp [hx]
      · cases h

theorem find_first_of_get (l : List Char) (c : Char) (pos q : Nat)
    (h : find_first_of l c pos = some q) : pos ≤ q ∧ l[q]? = some c := by
  induction l generalizing pos q with
  | nil => simp [find_first_of] at h
  | cons x xs ih =>
    cases pos with
    | zero =>
      simp only [find_first_of] at h
      split at h
      · rename_i hx
        cases h
        simp [hx]
      · cases hf : find_first_of xs c 0 with
        | none => rw [hf] at h; cases h
        | some k =>
          rw [hf] at h
          simp only [Option.map_some', Option.some.injEq] at h
          subst h
          exact ⟨Nat.zero_le _, by simpa using (ih 0 k hf).2⟩
    | succ pos =>
      simp only [find_first_of] at h
      cases hf : find_first_of xs c pos with
      | none => rw [hf] at h; cases h
      | some k =>
        rw [hf] at h
        simp only [Option.map_some', Option.some.injEq] at h
        subst h
        obtain ⟨h1, h2⟩ := ih pos k hf
        exact ⟨by omega, by simpa using h2⟩

/-- A first occurrence found inside the prefix `A` is found in `A` alone. -/
theorem find_first_of_inside (A X : List Char) (c : Char) (pos q : Nat)
    (h : find_first_of (A ++ X) c pos = some q) (hq : q < A.length) :
    find_first_of A c pos = some q := by
  induction A generalizing pos q with
  | nil => simp at hq
  | cons x A ih =>
    cases pos with
    | zero =>
      simp only [List.cons_append, find_first_of, List.append_eq] at h ⊢
      split at h
      · rename_i hx
        simp [hx, h]
      · rename_i hx
        rw [if_neg hx]
        cases hf : find_first_of (A ++ X) c 0 with
        | none => rw [hf] at h; cases h
        | some k =>
          rw [hf] at h
          simp only [Option.map_some', Option.some.injEq] at h
          subst h
          rw [ih 0 k hf (by simp only [List.length_cons] at hq; omega)]
          rfl
    | succ pos =>
      simp only [List.cons_append, find_first_of, List.append_eq] at h ⊢
      cases hf : find_first_of (A ++ X) c pos with
      | none => rw [hf] at h; cases h
      | some k =>
        rw [hf] at h
        simp only [Option.map_some', Option.some.injEq] at h
        subst h
        rw [ih pos k hf (by simp only [List.length_cons] at hq; omega)]
        rfl

/-- A first occurrence found in `A` stays the first one when text follows. -/
theorem find_first_of_append (A X : List Char) (c : Char) (pos q : Nat)
    (h : find_first_of A c pos = some q) :
    find_first_of (A ++ X) c pos = some q := by
  induction A generalizing pos q with
  | nil => simp [find_first_of] at h
  | cons x A ih =>
    cases pos with
    | zero =>
      simp only [List.cons_append, find_first_of, List.append_eq] at h ⊢
      split at h
      · rename_i hx
        simp [hx, h]
      · rename_i hx
        rw [if_neg hx]
        cases hf : find_first_of A c 0 with
        | none => rw [hf] at h; cases h
        | some k =>
          rw [hf] at h
          simp only [Option.map_some', Option.some.injEq] at h
          subst h
          rw [ih 0 k hf]
          rfl
    | succ pos =>
      simp only [List.cons_append, find_first_of, List.append_eq] at h ⊢
      cases hf : find_first_of A c pos with
      | none => rw [hf] at h; cases h
      | some k =>
        rw [hf] at h
        simp only [Option.map_some', Option.some.injEq] at h
        subst h
        rw [ih pos k hf]
        rfl

theorem substr_append (A X : List Char) (pos len : Nat) (h : pos + len ≤ A.length) :
    substr (A ++ X) pos len = substr A pos len := by
  unfold substr
  rw [List.drop_append_of_le_length (by omega), List.take_append_of_le_length]
  rw [List.length_drop]
  omega

/-- The file name depends only on a prefix of the URL that holds the last `/`
and the first `?` after it. -/
theorem FilenameFromUrl_initial (A X : List Char) (s q : Nat)
    (hslash : find_last_of A '/' = some s) (hX : '/' ∉ X)
    (hquery : find_first_of A '?' s = some q) (hq : q < A.length) :
    FilenameFromUrl (A ++ X) = substr A (s + 1) (q - s - 1) := by
  have h1 : find_last_of (A ++ X) '/' = some s := by
    rw [find_last_of_append A X '/' hX, hslash]
  have h2 : find_first_of (A ++ X) '?' s = some q := find_first_of_append A X '?' s q hquery
  have hsq := (find_first_of_get A '?' s q hquery).1
  unfold FilenameFromUrl
  simp only [h1, h2]
  apply substr_append
  omega

/-- C20: for every URL whose last `/` is followed by a `?` and whose first
`dl=0` does not start before that `?`, the file name of the direct-download
URL equals the file name of the URL; the download loop and the unzip loop of
`main` therefore use the same seven archive names, the first being
`C1.zip`. -/
theorem C20_filename_preserved :
    (∀ (url : List Char) (s q : Nat),
      find_last_of url '/' = some s →
      find_first_of url '?' s = some q →
      (∀ p, find url "dl=0".toList = some p → q ≤ p) →
      FilenameFromUrl (MakeDirectDownloadUrl url) = FilenameFromUrl url) ∧
    downloadNames = unzipNames ∧
    unzipNames = ["C1.zip".toList, "C3.zip".toList, "C10.zip".toList, "R3.zip".toList,
      "R10.zip".toList, "sparse_corr.zip".toList, "sparse_rand.zip".toList] := by
  refine ⟨?_, ?_, ?_⟩
  · intro url s q hslash hquery hdl
    unfold MakeDirectDownloadUrl
    cases hf : find url "dl=0".toList with
    | none => rfl
    | some p =>
      simp only
      obtain ⟨A, B, hurl, hA⟩ := find_split url _ p hf
      have hqp := hdl p hf
      obtain ⟨hsq, hqget⟩ := find_first_of_get url '?' s q hquery
      have hsget := find_last_of_get url '/' s hslash
      -- the character at `p` is `d`, the one at `q` is `?`, the one at `s` is `/`
      have hpget : url[p]? = some 'd' := by
        rw [hurl, List.append_assoc, List.getElem?_append_right (by omega)]
        simp [hA]
      have hq_ne : q ≠ p := by
        intro h
        rw [h, hpget] at hqget
        cases hqget
      have hs_ne : s ≠ q := by
        intro h
        rw [h, hqget] at hsget
        cases hsget
      have hqA : q < A.length := by omega
      have hsA : s < A.length := by omega
      have hurl' : url = A ++ ("dl=0".toList ++ B) := by rw [hurl, List.append_assoc]
      have hX : '/' ∉ "dl=0".toList ++ B :=
        find_last_of_inside A _ '/' s (by rw [← hurl']; exact hslash) hsA
      have hB : '/' ∉ B := fun h => hX (List.mem_append_right _ h)
      have hY : '/' ∉ "dl=1".toList ++ B := by
        intro h
        rcases List.mem_append.1 h with h | h
        · revert h; decide
        · exact hB h
      have hslashA : find_last_of A '/' = some s := by
        rw [← find_last_of_append A _ '/' hX, ← hurl']; exact hslash
      have hqueryA : find_first_of A '?' s = some q :=
        find_first_of_inside A _ '?' s q (by rw [← hurl']; exact hquery) hqA
      have htake : url.take p = A := by
        rw [hurl', ← hA]; exact List.take_left _ _
      have hdrop : url.drop (p + "dl=0".toList.length) = B := by
        rw [hurl, ← hA, ← List.length_append]; exact List.drop_left _ _
      rw [htake, hdrop, List.append_assoc,
        FilenameFromUrl_initial A _ s q hslashA hY hqueryA hqA]
      conv_rhs => rw [hurl']
      rw [FilenameFromUrl_initial A _ s q hslashA hX hqueryA hqA]
  · set_option maxRecDepth 100000 in rfl
  · rfl

theorem sampleUrl_dl : ∀ p, find sampleUrl "dl=0".toList = some p → 7 ≤ p := by
  intro p h
  rw [show find sampleUrl "dl=0".toList = some 10 from rfl] at h
  cases h
  decide

/-- C20 at a short URL: last `/` at index 1, `?` at index 7, `dl=0` at 10. -/
theorem C20_filename_preserved_witness :
    (find_last_of sampleUrl '/' = some 1 ∧
      find_first_of sampleUrl '?' 1 = some 7 ∧
      ∀ p, find sampleUrl "dl=0".toList = some p → 7 ≤ p) ∧
    FilenameFromUrl (MakeDirectDownloadUrl sampleUrl) = FilenameFromUrl sampleUrl ∧
    FilenameFromUrl sampleUrl = "a.zip".toList :=
  ⟨⟨rfl, rfl, sampleUrl_dl⟩,
    C20_filename_preserved.1 sampleUrl 1 7 rfl rfl sampleUrl_dl, rfl⟩

/-- C15, as stated, fails for an index token beyond the range of `int`: the
two files differ only in the first token of their item line, a numeral in
both, and the second file has the line dropped. -/
theorem C15_huge_index_drops_line :
    tokens "1 2 3".toList = ["1".toList, "2".toList, "3".toList] ∧
    tokens "99999999999 2 3".toList = ["99999999999".toList, "2".toList, "3".toList] ∧
    (∀ c ∈ "99999999999".toList, c.isDigit = true) ∧
    ParseKnapsackFile (oneFile "param : V : p w :=\n1 2 3\n;\n".toList)
        "inst.txt".toList [] [] 0 []
      = .ok { ok := true, weights := [3], values := [2], capacity := 0, conflicts := [],
              warned := false } ∧
    ParseKnapsackFile (oneFile "param : V : p w :=\n99999999999 2 3\n;\n".toList)
        "inst.txt".toList [] [] 0 []
      = .ok { ok := true, weights := [], values := [], capacity := 0, conflicts := [],
              warned := false } :=
  ⟨rfl, rfl, by decide, rfl, rfl⟩

/-! ## Claims on the batch loop -/

/-- One iteration for a path that cannot be opened. -/
theorem runInstance_unreadable (fs : List Char → Option (List Char))
    (solve : CpModelBuilder → CpSolverResponse) (dur : Durations) (now : Nat)
    (filepath : List Char) (h : fs filepath = none) :
    runInstance fs solve dur now filepath
      = .ok (now + dur.parse filepath, Outcome.readError) := by
  simp [runInstance, ParseKnapsackFile, h]

/-- One iteration for a file that parses, by the result of the solve. -/
theorem runInstance_parsed (fs : List Char → Option (List Char))
    (solve : CpModelBuilder → CpSolverResponse) (dur : Durations) (now : Nat)
    (filepath : List Char) (parsed : ParseReturn)
    (hparse : ParseKnapsackFile fs filepath [] [] 0 [] = .ok parsed)
    (hok : parsed.ok = true) :
    runInstance fs solve dur now filepath =
      match SolveKnapsackWithConflicts solve parsed.weights parsed.values
          parsed.capacity parsed.conflicts with
      | some res =>
        .ok (now + dur.parse filepath + dur.build filepath + dur.engine filepath,
          Outcome.solved res
            (now + dur.parse filepath + dur.build filepath + dur.engine filepath - now))
      | none =>
        .ok (now + dur.parse filepath + dur.build filepath + dur.engine filepath,
          Outcome.noSolution
            (now + dur.parse filepath + dur.build filepath + dur.engine filepath - now)) := by
  simp only [runInstance, hparse, hok, Bool.true_eq_false, if_false]

/-- An unreadable path adds the entry `Error: unable to read file` and the
loop goes on with the remaining paths. -/
theorem batchLoop_unreadable (fs : List Char → Option (List Char))
    (solve : CpModelBuilder → CpSolverResponse) (dur : Durations)
    (showDuration : Nat → List Char) (st : BatchState)
    (filepath : List Char) (rest : List (List Char)) (h : fs filepath = none) :
    batchLoop fs solve dur showDuration st (filepath :: rest) =
      batchLoop fs solve dur showDuration
        { now := st.now + dur.parse filepath,
          results_summary := st.results_summary ++
            [(filepath, "Error: unable to read file".toList)] } rest := by
  simp only [batchLoop, runInstance_unreadable fs solve dur st.now filepath h]
  rfl

/-- A solve without an OPTIMAL or FEASIBLE answer adds the entry `No solution`
and the loop goes on with the remaining paths. -/
theorem batchLoop_noSolution (fs : List Char → Option (List Char))
    (solve : CpModelBuilder → CpSolverResponse) (dur : Durations)
    (showDuration : Nat → List Char) (st : BatchState)
    (filepath : List Char) (rest : List (List Char)) (parsed : ParseReturn)
    (hparse : ParseKnapsackFile fs filepath [] [] 0 [] = .ok parsed)
    (hok : parsed.ok = true)
    (hnone : SolveKnapsackWithConflicts solve parsed.weights parsed.values
      parsed.capacity parsed.conflicts = none) :
    batchLoop fs solve dur showDuration st (filepath :: rest) =
      batchLoop fs solve dur showDuration
        { now := st.now + dur.parse filepath + dur.build filepath + dur.engine filepath,
          results_summary := st.results_summary ++ [(filepath, "No solution".toList)] }
        rest := by
  simp only [batchLoop, runInstance_parsed fs solve dur st.now filepath parsed hparse hok,
    hnone]
  rfl

/-- When the loop runs to its end, the summary holds one entry per path, in
the order of the paths. -/
theorem batchLoop_paths (fs : List Char → Option (List Char))
    (solve : CpModelBuilder → CpSolverResponse) (dur : Durations)
    (showDuration : Nat → List Char) (paths : List (List Char)) (st st' : BatchState)
    (h : batchLoop fs solve dur showDuration st paths = .ok st') :
    st'.results_summary.map Prod.fst = st.results_summary.map Prod.fst ++ paths := by
  induction paths generalizing st with
  | nil =>
    simp only [batchLoop] at h
    cases h
    simp
  | cons filepath rest ih =>
    simp only [batchLoop] at h
    cases hr : runInstance fs solve dur st.now filepath with
    | error e => rw [hr] at h; cases h
    | ok p =>
      obtain ⟨now', outcome⟩ := p
      rw [hr] at h
      simp only at h
      rw [ih _ h]
      simp

/-- C13: the batch loop does not produce a summary for every list of paths. A
file whose `param n :=` line holds no number makes `std::stoi` throw inside
`ParseKnapsackFile`; the exception leaves the loop at that path, the later
path is not processed and no summary entry exists. -/
theorem C13_batch_aborts_on_stoi_exception :
    batchLoop sampleFiles sampleSolver sampleDurations showNat
        { now := 0, results_summary := [] } ["bad.txt".toList, "good.txt".toList]
      = .error StoiError.invalid_argument :=
  rfl

/-- C14, as stated, fails: with 3 ticks spent in `ParseKnapsackFile`, 1 in the
model construction and 4 in the solver, the recorded `time_taken` is 8 and not
the 4 ticks of the solver. -/
theorem C14_time_includes_parse :
    runInstance sampleFiles sampleSolver sampleDurations 10 "good.txt".toList
      = .ok (18, Outcome.solved { picked := [0, 1], total_weight := 5, total_value := 7 } 8) ∧
    sampleDurations.engine "good.txt".toList = 4 ∧
    (8 : Nat) ≠ sampleDurations.engine "good.txt".toList :=
  ⟨rfl, rfl, by decide⟩

/-- C14, amended: the duration attached to an instance is the difference of
the clock reading taken before `ParseKnapsackFile` is called and the reading
taken after `SolveKnapsackWithConflicts` returns: the time of the parse, of
the model construction and of the solver together. For a path that cannot be
read no duration is recorded. -/
theorem C14_time_taken (fs : List Char → Option (List Char))
    (solve : CpModelBuilder → CpSolverResponse) (dur : Durations) (now now' : Nat)
    (filepath : List Char) (outcome : Outcome)
    (h : runInstance fs solve dur now filepath = .ok (now', outcome)) :
    match outcome with
    | Outcome.solved _ time_taken =>
      time_taken = dur.parse filepath + dur.build filepath + dur.engine filepath ∧
        now' = now + time_taken
    | Outcome.noSolution duration =>
      duration = dur.parse filepath + dur.build filepath + dur.engine filepath ∧
        now' = now + duration
    | Outcome.readError => now' = now + dur.parse filepath := by
  cases hp : ParseKnapsackFile fs filepath [] [] 0 [] with
  | error e =>
    simp only [runInstance, hp] at h
    cases h
  | ok parsed =>
    cases hok : parsed.ok with
    | false =>
      simp only [runInstance, hp, hok, if_true] at h
      cases h
      rfl
    | true =>
      rw [runInstance_parsed fs solve dur now filepath parsed hp hok] at h
      cases hs : SolveKnapsackWithConflicts solve parsed.weights parsed.values
          parsed.capacity parsed.conflicts with
      | none =>
        rw [hs] at h
        cases h
        simp only
        omega
      | some res =>
        rw [hs] at h
        cases h
        simp only
        omega

/-- C14 amended, at the sample file: 3 + 1 + 4 ticks. -/
theorem C14_time_taken_witness :
    runInstance sampleFiles sampleSolver sampleDurations 10 "good.txt".toList
      = .ok (18, Outcome.solved { picked := [0, 1], total_weight := 5, total_value := 7 } 8) ∧
    ((8 : Nat) = sampleDurations.parse "good.txt".toList
        + sampleDurations.build "good.txt".toList
        + sampleDurations.engine "good.txt".toList ∧
      (18 : Nat) = 10 + 8) :=
  ⟨rfl,
    C14_time_taken sampleFiles sampleSolver sampleDurations 10 18 "good.txt".toList
      (Outcome.solved { picked := [0, 1], total_weight := 5, total_value := 7 } 8) rfl⟩

end KPCG
